import Mathlib

/-!
Verification of the hashed-dictionary hint subsystem
(`crates/cairo-addons/src/vm/hint_definitions/hashdict.rs`).

The seven hint operations are embedded as pure functions over an explicit
state holding the VM memory, the segment allocator and the dictionary
manager.  The hint code itself is translated from the Rust source; the
collaborating pieces that live in the external `cairo_vm` crate
(memory, named-operand resolution, `DictTracker`, `DictManager`,
`DICT_ACCESS_SIZE`) are modelled from the specification, which describes
them at their interface boundary (spec sections 3 and 6).
-/

set_option autoImplicit false

namespace HashDict

/-- Field elements (`Felt252`).  The hints use felts only for equality
tests, construction and conversion to `usize`, never for field
arithmetic, so they are modelled as natural numbers. -/
abbrev Felt := Nat

/-- A reference into VM memory: segment index and offset. -/
structure Relocatable where
  segment_index : Nat
  offset : Nat
deriving DecidableEq, Repr

/-- A VM memory cell content: a felt or a relocatable (`MaybeRelocatable`). -/
inductive MaybeRelocatable where
  | int (v : Felt)
  | relocatableValue (r : Relocatable)
deriving DecidableEq, Repr

/-- `MaybeRelocatable::get_int`: project out the felt, if any. -/
def MaybeRelocatable.get_int : MaybeRelocatable → Option Felt
  | .int v => some v
  | .relocatableValue _ => none

/-- Dictionary keys (`DictKey`): a simple single value or a compound
ordered sequence of values. -/
inductive DictKey where
  | simple (v : MaybeRelocatable)
  | compound (vs : List MaybeRelocatable)
deriving DecidableEq, Repr

/-- The typed errors the hints can return, one constructor per distinct
error construction site reachable from the hint code.
`noValueFound` and `noPreimageFound` model the two `CustomHint`
messages built in the source; `feltToUsizeConversion` models
`MathError::Felt252ToUsizeConversion`. -/
inductive HintError where
  | identifierNotFound (name : String)
  | identifierNotRelocatable (name : String)
  | identifierNotInteger (name : String)
  | unknownMemoryCell (a : Relocatable)
  | inconsistentMemory (a : Relocatable)
  | feltToUsizeConversion (v : Felt)
  | noDictTracker (segment : Nat)
  | noValueForKey (k : DictKey)
  | noValueFound (k : DictKey)
  | noPreimageFound (h : Felt)
deriving DecidableEq, Repr

/-- Whether an error is a memory error (spec section 7: "uninitialized or
unwritable cell"). -/
def HintError.isMemoryError : HintError → Bool
  | .unknownMemoryCell _ => true
  | .inconsistentMemory _ => true
  | _ => false

/-- Modelled from the spec: VM memory ("read a Value at an absolute
address; write a Value at an absolute address", section 6), as a list of
written cells; absent cells are uninitialized. -/
abbrev Memory := List (Relocatable × MaybeRelocatable)

/-- Read the value at an address (`vm.get_maybe`): `none` if the cell is
uninitialized. -/
def memGet : Memory → Relocatable → Option MaybeRelocatable
  | [], _ => none
  | (a, v) :: rest, a' => if a = a' then some v else memGet rest a'

/-- Write a value at an address (`vm.insert_value`).  VM memory is
write-once: rewriting an occupied cell with a different value fails. -/
def memInsert (m : Memory) (a : Relocatable) (v : MaybeRelocatable) :
    Except HintError Memory :=
  match memGet m a with
  | some w => if w = v then .ok m else .error (.inconsistentMemory a)
  | none => .ok ((a, v) :: m)

/-- Modelled from the spec: named-operand resolution ("resolve a symbolic
operand name to a concrete memory address", section 6), as a map from
operand name to the memory cell holding the operand. -/
abbrev Ids := List (String × Relocatable)

/-- Resolve an operand name to its memory cell. -/
def idAddr : Ids → String → Except HintError Relocatable
  | [], name => .error (.identifierNotFound name)
  | (n, a) :: rest, name => if n = name then .ok a else idAddr rest name

/-- `get_maybe_relocatable_from_var_name`: read the operand's cell. -/
def get_maybe_relocatable_from_var_name (ids : Ids) (m : Memory)
    (name : String) : Except HintError MaybeRelocatable :=
  match idAddr ids name with
  | .error e => .error e
  | .ok a =>
    match memGet m a with
    | some v => .ok v
    | none => .error (.unknownMemoryCell a)

/-- `get_ptr_from_var_name`: read the operand's cell, requiring a
relocatable. -/
def get_ptr_from_var_name (ids : Ids) (m : Memory) (name : String) :
    Except HintError Relocatable :=
  match get_maybe_relocatable_from_var_name ids m name with
  | .error e => .error e
  | .ok (.relocatableValue r) => .ok r
  | .ok (.int _) => .error (.identifierNotRelocatable name)

/-- `get_integer_from_var_name`: read the operand's cell, requiring a
felt. -/
def get_integer_from_var_name (ids : Ids) (m : Memory) (name : String) :
    Except HintError Felt :=
  match get_maybe_relocatable_from_var_name ids m name with
  | .error e => .error e
  | .ok (.int v) => .ok v
  | .ok (.relocatableValue _) => .error (.identifierNotInteger name)

/-- `insert_value_from_var_name`: write a value into the operand's cell. -/
def insert_value_from_var_name (ids : Ids) (m : Memory) (name : String)
    (v : MaybeRelocatable) : Except HintError Memory :=
  match idAddr ids name with
  | .error e => .error e
  | .ok a => memInsert m a v

/-- Modelled from the spec: a Dictionary Tracker owns "a mapping from Key
to Value, with order-of-first-insertion preserved" and "a cursor
(`current position`)" (spec section 3).  The mapping is an
insertion-ordered association list. -/
structure DictTracker where
  data : List (DictKey × MaybeRelocatable)
  current_ptr : Relocatable
  default_value : Option MaybeRelocatable
deriving DecidableEq, Repr

/-- First-match lookup in the insertion-ordered mapping. -/
def dataFind : List (DictKey × MaybeRelocatable) → DictKey →
    Option MaybeRelocatable
  | [], _ => none
  | (k, v) :: rest, k' => if k = k' then some v else dataFind rest k'

/-- `DictTracker::get_value`: look the key up.  On a miss the underlying
generic dictionary "defines whether a default value exists" (spec
sections 4.2 and 9, open question): a tracker backed by a default
dictionary yields its default value, otherwise the miss is
`KeyNotFound`.  The hint layer itself synthesizes nothing
(spec section 7). -/
def DictTracker.get_value (t : DictTracker) (k : DictKey) :
    Except HintError MaybeRelocatable :=
  match dataFind t.data k with
  | some v => .ok v
  | none =>
    match t.default_value with
    | some d => .ok d
    | none => .error (.noValueForKey k)

/-- Update an existing key in place (preserving its first-insertion
position) or append a new one at the end. -/
def insertOrUpdate : List (DictKey × MaybeRelocatable) → DictKey →
    MaybeRelocatable → List (DictKey × MaybeRelocatable)
  | [], k, v => [(k, v)]
  | (k', v') :: rest, k, v =>
    if k' = k then (k', v) :: rest else (k', v') :: insertOrUpdate rest k v

/-- `DictTracker::insert_value`: establish or overwrite the key's value. -/
def DictTracker.insert_value (t : DictTracker) (k : DictKey)
    (v : MaybeRelocatable) : DictTracker :=
  { t with data := insertOrUpdate t.data k v }

/-- `tracker.get_dictionary_ref().keys()`: the keys in insertion order. -/
def DictTracker.keys (t : DictTracker) : List DictKey :=
  t.data.map (fun p => p.1)

/-- Modelled from the spec: the Dictionary Manager "owns zero or more
Trackers, keyed by the memory address that identifies their backing
segment" (spec section 3), i.e. by segment index. -/
abbrev DictManager := List (Nat × DictTracker)

/-- Find the tracker for a segment index. -/
def dmFind : DictManager → Nat → Option DictTracker
  | [], _ => none
  | (g, t) :: rest, g' => if g = g' then some t else dmFind rest g'

/-- Replace the tracker stored for a segment index (no-op when absent). -/
def dmSet : DictManager → Nat → DictTracker → DictManager
  | [], _, _ => []
  | (g, t) :: rest, g', t' =>
    if g = g' then (g, t') :: rest else (g, t) :: dmSet rest g' t'

/-- `dict_manager.get_tracker(_mut)(dict_ptr)`: resolve the tracker backing
a dictionary pointer. -/
def DictManager.get_tracker (dm : DictManager) (ptr : Relocatable) :
    Except HintError DictTracker :=
  match dmFind dm ptr.segment_index with
  | some t => .ok t
  | none => .error (.noDictTracker ptr.segment_index)

/-- The whole state a hint operates on: VM memory, the segment allocator's
next fresh segment index, and the dictionary manager. -/
structure S where
  mem : Memory
  nextSegment : Nat
  dm : DictManager
deriving DecidableEq, Repr

/-- `vm.add_memory_segment`: allocate a fresh, empty memory segment. -/
def add_memory_segment (s : S) : Relocatable × S :=
  (⟨s.nextSegment, 0⟩, { s with nextSegment := s.nextSegment + 1 })

/-- The observable outcome of one hint invocation: normal return with the
final state, a typed error with the state at the moment of the error
(the Rust hints mutate the live VM and manager in place, so mutations
made before an error persist), or a Rust panic (process abort, no state
observable). -/
inductive Outcome where
  | ok (s : S)
  | err (e : HintError) (s : S)
  | panicked
deriving DecidableEq, Repr

/-- Modelled from the spec: the record width, "the fixed number of memory
cells one logged dictionary access consumes" (`DICT_ACCESS_SIZE`, a
protocol-level constant of the external dictionary machinery; its value
there is 3). -/
def DICT_ACCESS_SIZE : Nat := 3

/-- `usize::try_from` on a felt (`Felt252ToUsizeConversion` on failure). -/
def felt_to_usize (v : Felt) : Except HintError Nat :=
  if v < 2 ^ 64 then .ok v else .error (.feltToUsizeConversion v)

/-- Read `len` consecutive cells starting at `base + i`, failing on the
first uninitialized cell (the shared shape of `build_compound_key` and
the prefix read in get_keys_for_address_prefix). -/
def read_cells (m : Memory) (base : Relocatable) :
    Nat → Nat → Except HintError (List MaybeRelocatable)
  | _, 0 => .ok []
  | i, n + 1 =>
    match memGet m ⟨base.segment_index, base.offset + i⟩ with
    | none => .error (.unknownMemoryCell ⟨base.segment_index, base.offset + i⟩)
    | some v =>
      match read_cells m base (i + 1) n with
      | .error e => .error e
      | .ok vs => .ok (v :: vs)

/-- `build_compound_key`: read `key_len` consecutive values starting at
`key` and package them as a compound key. -/
def build_compound_key (m : Memory) (key : Relocatable) (key_len : Nat) :
    Except HintError DictKey :=
  match read_cells m key 0 key_len with
  | .error e => .error e
  | .ok vs => .ok (.compound vs)

/-- Advance a tracker's cursor by `n` cells. -/
def advanceCursor (t : DictTracker) (n : Nat) : DictTracker :=
  { t with current_ptr :=
      { t.current_ptr with offset := t.current_ptr.offset + n } }

/-- `hashdict_read`: advance the cursor by one record width, build the
compound key from memory, look it up, and write the value to the
`value` operand. -/
def hashdict_read (ids : Ids) (s : S) : Outcome :=
  match get_ptr_from_var_name ids s.mem "dict_ptr" with
  | .error e => .err e s
  | .ok dict_ptr =>
    match s.dm.get_tracker dict_ptr with
    | .error e => .err e s
    | .ok tracker =>
      let tracker1 := advanceCursor tracker DICT_ACCESS_SIZE
      let s1 : S := { s with dm := dmSet s.dm dict_ptr.segment_index tracker1 }
      match get_ptr_from_var_name ids s1.mem "key" with
      | .error e => .err e s1
      | .ok key =>
        match get_integer_from_var_name ids s1.mem "key_len" with
        | .error e => .err e s1
        | .ok key_len_felt =>
          match felt_to_usize key_len_felt with
          | .error e => .err e s1
          | .ok key_len =>
            match build_compound_key s1.mem key key_len with
            | .error e => .err e s1
            | .ok dict_key =>
              match tracker1.get_value dict_key with
              | .error e => .err e s1
              | .ok value =>
                match insert_value_from_var_name ids s1.mem "value" value with
                | .error e => .err e s1
                | .ok mem2 => .ok { s1 with mem := mem2 }

/-- `hashdict_write`: advance the cursor by one record width, build the
compound key, write the key's old value into the audit slot at
`dict_ptr + 1` (any memory failure there is reported as
`UnknownMemoryCell dict_ptr_prev_value`), then overwrite the key's
mapped value with the new value. -/
def hashdict_write (ids : Ids) (s : S) : Outcome :=
  match get_ptr_from_var_name ids s.mem "dict_ptr" with
  | .error e => .err e s
  | .ok dict_ptr =>
    match s.dm.get_tracker dict_ptr with
    | .error e => .err e s
    | .ok tracker =>
      let tracker1 := advanceCursor tracker DICT_ACCESS_SIZE
      let s1 : S := { s with dm := dmSet s.dm dict_ptr.segment_index tracker1 }
      match get_ptr_from_var_name ids s1.mem "key" with
      | .error e => .err e s1
      | .ok key =>
        match get_integer_from_var_name ids s1.mem "key_len" with
        | .error e => .err e s1
        | .ok key_len_felt =>
          match felt_to_usize key_len_felt with
          | .error e => .err e s1
          | .ok key_len =>
            match build_compound_key s1.mem key key_len with
            | .error e => .err e s1
            | .ok dict_key =>
              match get_maybe_relocatable_from_var_name ids s1.mem "new_value" with
              | .error e => .err e s1
              | .ok new_value =>
                let dict_ptr_prev_value : Relocatable :=
                  { dict_ptr with offset := dict_ptr.offset + 1 }
                match tracker1.get_value dict_key with
                | .error e => .err e s1
                | .ok old_value =>
                  match memInsert s1.mem dict_ptr_prev_value old_value with
                  | .error _ =>
                    .err (.unknownMemoryCell dict_ptr_prev_value) s1
                  | .ok mem2 =>
                    let tracker2 := tracker1.insert_value dict_key new_value
                    let dm2 := dmSet s1.dm dict_ptr.segment_index tracker2
                    .ok { s1 with mem := mem2, dm := dm2 }

/-- The hash-match test of `_get_preimage_for_hashed_key`: project the
key's elements to felts with `filter_map get_int`; the key matches when
that projection's sole element equals the hashed key (length 1), or
otherwise when the sponge hash of the projection equals it.  `sponge`
is the externally supplied hash primitive (`poseidon_hash_many`),
treated as a black box. -/
def compound_key_matches (sponge : List Felt → Felt) (hashed_key : Felt) :
    DictKey → Bool
  | .compound values =>
    let felt_values := values.filterMap MaybeRelocatable.get_int
    if felt_values.length = 1 then felt_values.headI = hashed_key
    else sponge felt_values = hashed_key
  | .simple _ => false

/-- `_get_preimage_for_hashed_key`: the first key in insertion order whose
computed hash equals the hashed key; `CustomHint "No preimage found..."`
when none matches. -/
def get_preimage_for_hashed_key (sponge : List Felt → Felt)
    (hashed_key : Felt) (tracker : DictTracker) : Except HintError DictKey :=
  match tracker.keys.find? (compound_key_matches sponge hashed_key) with
  | some k => .ok k
  | none => .error (.noPreimageFound hashed_key)

/-- `hashdict_read_from_key`: resolve the hashed key, search for a matching
compound preimage, falling back to the simple key wrapping the hash
itself; look the resolved key up (failure is
`CustomHint "No value found..."`) and write the value to the `value`
operand.  No cursor advance. -/
def hashdict_read_from_key (sponge : List Felt → Felt) (ids : Ids) (s : S) :
    Outcome :=
  match get_integer_from_var_name ids s.mem "key" with
  | .error e => .err e s
  | .ok hashed_key =>
    match get_ptr_from_var_name ids s.mem "dict_ptr_stop" with
    | .error e => .err e s
    | .ok dict_ptr =>
      match s.dm.get_tracker dict_ptr with
      | .error e => .err e s
      | .ok tracker =>
        let simple_key := DictKey.simple (.int hashed_key)
        let preimage :=
          match get_preimage_for_hashed_key sponge hashed_key tracker with
          | .ok p => p
          | .error _ => simple_key
        match tracker.get_value preimage with
        | .error _ => .err (.noValueFound preimage) s
        | .ok value =>
          match insert_value_from_var_name ids s.mem "value" value with
          | .error e => .err e s
          | .ok mem2 => .ok { s with mem := mem2 }

/-- Write a list of values to consecutive cells starting at `base + i`,
one `vm.insert_value` at a time; on failure the writes already made
persist. -/
def write_cells (m : Memory) (base : Relocatable) :
    Nat → List MaybeRelocatable → Memory × Option HintError
  | _, [] => (m, none)
  | i, v :: vs =>
    match memInsert m ⟨base.segment_index, base.offset + i⟩ v with
    | .error e => (m, some e)
    | .ok m2 => write_cells m2 base (i + 1) vs

/-- `get_preimage_for_key`: search for the compound preimage of the hashed
key (no simple fallback); write its element sequence to the
`preimage_data` address and its length to the `preimage_len` operand. -/
def get_preimage_for_key (sponge : List Felt → Felt) (ids : Ids) (s : S) :
    Outcome :=
  match get_integer_from_var_name ids s.mem "key" with
  | .error e => .err e s
  | .ok hashed_key =>
    match get_ptr_from_var_name ids s.mem "dict_ptr_stop" with
    | .error e => .err e s
    | .ok dict_ptr =>
      match s.dm.get_tracker dict_ptr with
      | .error e => .err e s
      | .ok tracker =>
        match get_preimage_for_hashed_key sponge hashed_key tracker with
        | .error e => .err e s
        | .ok preimage =>
          match get_ptr_from_var_name ids s.mem "preimage_data" with
          | .error e => .err e s
          | .ok preimage_data_ptr =>
            match preimage with
            | .compound values =>
              match write_cells s.mem preimage_data_ptr 0 values with
              | (m2, some e) => .err e { s with mem := m2 }
              | (m2, none) =>
                match insert_value_from_var_name ids m2 "preimage_len"
                    (.int values.length) with
                | .error e => .err e { s with mem := m2 }
                | .ok m3 => .ok { s with mem := m3 }
            | .simple _ => .ok s

/-- `copy_hashdict_tracker_entry`: recover preimage and value via the
compound-only hash search against the source tracker, then advance the
destination tracker's cursor by one record width and insert the pair. -/
def copy_hashdict_tracker_entry (sponge : List Felt → Felt) (ids : Ids)
    (s : S) : Outcome :=
  match get_ptr_from_var_name ids s.mem "source_ptr_stop" with
  | .error e => .err e s
  | .ok source_ptr_stop =>
    match get_ptr_from_var_name ids s.mem "dest_ptr" with
    | .error e => .err e s
    | .ok dest_ptr =>
      match s.dm.get_tracker source_ptr_stop with
      | .error e => .err e s
      | .ok source_tracker =>
        match get_integer_from_var_name ids s.mem "source_key" with
        | .error e => .err e s
        | .ok key_hash =>
          match get_preimage_for_hashed_key sponge key_hash source_tracker with
          | .error e => .err e s
          | .ok preimage =>
            match source_tracker.get_value preimage with
            | .error _ => .err (.noValueFound preimage) s
            | .ok value =>
              match s.dm.get_tracker dest_ptr with
              | .error e => .err e s
              | .ok dest_tracker =>
                let dest1 := advanceCursor dest_tracker DICT_ACCESS_SIZE
                let dest2 := dest1.insert_value preimage value
                .ok { s with dm := dmSet s.dm dest_ptr.segment_index dest2 }

/-- The preimage filter of get_keys_for_address_prefix: keep a compound
key's element sequence when it is at least as long as the queried
leading sequence and starts with it element-wise. -/
def starts_with_pfx (pfx : List MaybeRelocatable) :
    DictKey → Option (List MaybeRelocatable)
  | .compound values =>
    if values.length ≥ pfx.length && values.take pfx.length == pfx then
      some values
    else none
  | .simple _ => none

/-- The `matching_preimages` collection of get_keys_for_address_prefix:
the element sequences of the matching compound keys, in tracker
insertion order. -/
def matching_preimages (pfx : List MaybeRelocatable) (t : DictTracker) :
    List (List MaybeRelocatable) :=
  t.keys.filterMap (starts_with_pfx pfx)

/-- The output-construction loop of get_keys_for_address_prefix: for the
`i`-th match, allocate two fresh segments `ptr` and `bytes32_base`,
write the match's elements from index 1 on to `bytes32_base`, write
`[first element, bytes32_base]` to `ptr`, and write `ptr` to
`base + i`.  On an empty match the Rust code slices `preimage[1..]` of
an empty vector, which panics. -/
def write_matches (s : S) (base : Relocatable) :
    Nat → List (List MaybeRelocatable) → Outcome
  | _, [] => .ok s
  | i, preimage :: rest =>
    let (ptr, s1) := add_memory_segment s
    let (bytes32_base, s2) := add_memory_segment s1
    match preimage with
    | [] => .panicked
    | first :: tail =>
      match write_cells s2.mem bytes32_base 0 tail with
      | (m, some e) => .err e { s2 with mem := m }
      | (m, none) =>
        match memInsert m ptr first with
        | .error e => .err e { s2 with mem := m }
        | .ok m2 =>
          match memInsert m2 ⟨ptr.segment_index, ptr.offset + 1⟩
              (.relocatableValue bytes32_base) with
          | .error e => .err e { s2 with mem := m2 }
          | .ok m3 =>
            match memInsert m3 ⟨base.segment_index, base.offset + i⟩
                (.relocatableValue ptr) with
            | .error e => .err e { s2 with mem := m3 }
            | .ok m4 => write_matches { s2 with mem := m4 } base (i + 1) rest

/-- get_keys_for_address_prefix: read the queried leading sequence from
memory, collect the matching compound-key preimages in insertion order,
materialize them in fresh memory segments, and write the match count to
`keys_len` and the top-level segment pointer to `keys`. -/
def get_keys_for_address_prefix (ids : Ids) (s : S) : Outcome :=
  match get_ptr_from_var_name ids s.mem "dict_ptr" with
  | .error e => .err e s
  | .ok dict_ptr =>
    match s.dm.get_tracker dict_ptr with
    | .error e => .err e s
    | .ok tracker =>
      match get_ptr_from_var_name ids s.mem "prefix" with
      | .error e => .err e s
      | .ok pfx_ptr =>
        match get_integer_from_var_name ids s.mem "prefix_len" with
        | .error e => .err e s
        | .ok pfx_len_felt =>
          match felt_to_usize pfx_len_felt with
          | .error e => .err e s
          | .ok pfx_len =>
            match read_cells s.mem pfx_ptr 0 pfx_len with
            | .error e => .err e s
            | .ok pfx =>
              let matching := matching_preimages pfx tracker
              let (base, s1) := add_memory_segment s
              match write_matches s1 base 0 matching with
              | .panicked => .panicked
              | .err e s2 => .err e s2
              | .ok s2 =>
                match insert_value_from_var_name ids s2.mem "keys_len"
                    (.int matching.length) with
                | .error e => .err e s2
                | .ok m5 =>
                  match insert_value_from_var_name ids m5 "keys"
                      (.relocatableValue base) with
                  | .error e => .err e { s2 with mem := m5 }
                  | .ok m6 => .ok { s2 with mem := m6 }

/-- `track_precompiles`: for each address of the externally supplied
precompile set (`Precompiles::cancun().addresses()`, injected here as
the felt list `precompiles`), insert the single-element compound key
wrapping the address mapped to the felt 1; then advance the cursor by
one record width per listed address. -/
def track_precompiles (precompiles : List Felt) (ids : Ids) (s : S) :
    Outcome :=
  match get_ptr_from_var_name ids s.mem "dict_ptr" with
  | .error e => .err e s
  | .ok dict_ptr =>
    match s.dm.get_tracker dict_ptr with
    | .error e => .err e s
    | .ok tracker =>
      let tracker1 := precompiles.foldl
        (fun t address =>
          t.insert_value (.compound [.int address]) (.int 1)) tracker
      let tracker2 := advanceCursor tracker1
        (precompiles.length * DICT_ACCESS_SIZE)
      .ok { s with dm := dmSet s.dm dict_ptr.segment_index tracker2 }

/-! Basic lemmas about the manager, tracker mapping and memory. -/

theorem dmFind_dmSet_same {dm : DictManager} {g : Nat} {t0 : DictTracker}
    (t : DictTracker) (h : dmFind dm g = some t0) :
    dmFind (dmSet dm g t) g = some t := by
  induction dm with
  | nil => simp [dmFind] at h
  | cons p rest ih =>
    obtain ⟨g', t'⟩ := p
    by_cases hg : g' = g
    · subst hg
      simp [dmFind, dmSet]
    · simp only [dmFind, dmSet, if_neg hg] at h ⊢
      exact ih h

theorem dmFind_dmSet_ne {g g' : Nat} (dm : DictManager) (t : DictTracker)
    (h : g ≠ g') : dmFind (dmSet dm g t) g' = dmFind dm g' := by
  induction dm with
  | nil => simp [dmFind, dmSet]
  | cons p rest ih =>
    obtain ⟨g0, t0⟩ := p
    by_cases hg : g0 = g
    · subst hg
      simp [dmFind, dmSet, if_neg h]
    · simp only [dmSet, if_neg hg, dmFind]
      by_cases hg' : g0 = g'
      · simp [if_pos hg']
      · simp [if_neg hg', ih]

theorem dmFind_dmSet_none {dm : DictManager} {g g' : Nat} {t : DictTracker}
    (h : dmFind (dmSet dm g t) g' = none) : dmFind dm g' = none := by
  by_cases hg : g = g'
  · subst hg
    cases hfind : dmFind dm g with
    | none => rfl
    | some t0 => rw [dmFind_dmSet_same t hfind] at h; cases h
  · rwa [dmFind_dmSet_ne dm t hg] at h

theorem dataFind_insertOrUpdate_self
    (l : List (DictKey × MaybeRelocatable)) (k : DictKey)
    (v : MaybeRelocatable) : dataFind (insertOrUpdate l k v) k = some v := by
  induction l with
  | nil => simp [insertOrUpdate, dataFind]
  | cons p rest ih =>
    obtain ⟨k0, v0⟩ := p
    by_cases hk : k0 = k
    · subst hk
      simp [insertOrUpdate, dataFind]
    · simp [insertOrUpdate, dataFind, if_neg hk, ih]

theorem dataFind_insertOrUpdate_ne {k k' : DictKey}
    (l : List (DictKey × MaybeRelocatable)) (v : MaybeRelocatable)
    (h : k ≠ k') : dataFind (insertOrUpdate l k v) k' = dataFind l k' := by
  induction l with
  | nil => simp [insertOrUpdate, dataFind, if_neg h]
  | cons p rest ih =>
    obtain ⟨k0, v0⟩ := p
    by_cases hk : k0 = k
    · subst hk
      simp [insertOrUpdate, dataFind, if_neg h]
    · simp only [insertOrUpdate, if_neg hk, dataFind]
      by_cases hk' : k0 = k'
      · simp [if_pos hk']
      · simp [if_neg hk', ih]

theorem get_value_insert_value (t : DictTracker) (k : DictKey)
    (v : MaybeRelocatable) : (t.insert_value k v).get_value k = .ok v := by
  simp [DictTracker.insert_value, DictTracker.get_value,
    dataFind_insertOrUpdate_self]

theorem keys_insertOrUpdate_mem {l : List (DictKey × MaybeRelocatable)}
    {k : DictKey} (v : MaybeRelocatable)
    (h : k ∈ l.map (fun p => p.1)) :
    (insertOrUpdate l k v).map (fun p => p.1) = l.map (fun p => p.1) := by
  induction l with
  | nil => simp at h
  | cons p rest ih =>
    obtain ⟨k0, v0⟩ := p
    by_cases hk : k0 = k
    · subst hk
      simp [insertOrUpdate]
    · simp only [List.map_cons, List.mem_cons] at h
      rcases h with h | h
      · exact absurd h.symm hk
      · simp [insertOrUpdate, if_neg hk, ih h]

theorem keys_insertOrUpdate_not_mem {l : List (DictKey × MaybeRelocatable)}
    {k : DictKey} (v : MaybeRelocatable)
    (h : k ∉ l.map (fun p => p.1)) :
    (insertOrUpdate l k v).map (fun p => p.1) =
      l.map (fun p => p.1) ++ [k] := by
  induction l with
  | nil => simp [insertOrUpdate]
  | cons p rest ih =>
    obtain ⟨k0, v0⟩ := p
    simp only [List.map_cons, List.mem_cons] at h
    push_neg at h
    have hne : ¬ k0 = k := fun hh => h.1 (Eq.symm hh)
    simp [insertOrUpdate, if_neg hne, ih h.2]

theorem memGet_cons (a a' : Relocatable) (v : MaybeRelocatable) (m : Memory) :
    memGet ((a, v) :: m) a' = if a = a' then some v else memGet m a' := rfl

theorem memInsert_fresh {m : Memory} {a : Relocatable} (v : MaybeRelocatable)
    (h : memGet m a = none) : memInsert m a v = .ok ((a, v) :: m) := by
  simp [memInsert, h]

theorem memInsert_ok_preserves {m m2 : Memory} {a x : Relocatable}
    {v w : MaybeRelocatable} (h : memInsert m a v = .ok m2)
    (hx : memGet m x = some w) : memGet m2 x = some w := by
  unfold memInsert at h
  cases hg : memGet m a with
  | some u =>
    rw [hg] at h
    by_cases he : u = v
    · simp [if_pos he] at h
      exact h ▸ hx
    · simp [if_neg he] at h
  | none =>
    rw [hg] at h
    simp at h
    subst h
    rw [memGet_cons]
    by_cases hax : a = x
    · subst hax
      rw [hg] at hx
      cases hx
    · simp [if_neg hax, hx]

theorem memInsert_ok_get_self {m m2 : Memory} {a : Relocatable}
    {v : MaybeRelocatable} (h : memInsert m a v = .ok m2) :
    memGet m2 a = some v := by
  unfold memInsert at h
  cases hg : memGet m a with
  | some u =>
    rw [hg] at h
    by_cases he : u = v
    · subst he
      simp at h
      exact h ▸ hg
    · simp [if_neg he] at h
  | none =>
    rw [hg] at h
    simp at h
    subst h
    simp [memGet_cons]

theorem memInsert_err_memory {m : Memory} {a : Relocatable}
    {v : MaybeRelocatable} {e : HintError} (h : memInsert m a v = .error e) :
    e.isMemoryError = true := by
  unfold memInsert at h
  cases hg : memGet m a with
  | some u =>
    rw [hg] at h
    by_cases he : u = v
    · simp [if_pos he] at h
    · simp [if_neg he] at h
      simp [← h, HintError.isMemoryError]
  | none =>
    rw [hg] at h
    simp at h

theorem write_cells_preserves {b x : Relocatable} {w : MaybeRelocatable} :
    ∀ (vs : List MaybeRelocatable) (m m2 : Memory) (i : Nat)
      (e : Option HintError),
      write_cells m b i vs = (m2, e) → memGet m x = some w →
      memGet m2 x = some w := by
  intro vs
  induction vs with
  | nil =>
    intro m m2 i e h hx
    simp [write_cells] at h
    exact h.1 ▸ hx
  | cons v rest ih =>
    intro m m2 i e h hx
    unfold write_cells at h
    cases hins : memInsert m ⟨b.segment_index, b.offset + i⟩ v with
    | error e0 =>
      rw [hins] at h
      simp at h
      exact h.1 ▸ hx
    | ok mnext =>
      rw [hins] at h
      exact ih mnext m2 (i + 1) e h (memInsert_ok_preserves hins hx)

theorem write_cells_ok_get {b : Relocatable} :
    ∀ (vs : List MaybeRelocatable) (m m2 : Memory) (i : Nat),
      write_cells m b i vs = (m2, none) →
      ∀ j, j < vs.length →
        memGet m2 ⟨b.segment_index, b.offset + (i + j)⟩ =
          some (vs.getD j (.int 0)) := by
  intro vs
  induction vs with
  | nil =>
    intro m m2 i h j hj
    simp at hj
  | cons v rest ih =>
    intro m m2 i h j hj
    unfold write_cells at h
    cases hins : memInsert m ⟨b.segment_index, b.offset + i⟩ v with
    | error e0 =>
      rw [hins] at h
      simp at h
    | ok mnext =>
      rw [hins] at h
      cases j with
      | zero =>
        have hv : memGet mnext ⟨b.segment_index, b.offset + i⟩ = some v :=
          memInsert_ok_get_self hins
        have := write_cells_preserves rest mnext m2 (i + 1) none h hv
        simpa using this
      | succ j0 =>
        have hj' : j0 < rest.length := by
          simp only [List.length_cons] at hj
          omega
        have := ih mnext m2 (i + 1) h j0 hj'
        have harith : b.offset + (i + 1 + j0) = b.offset + (i + (j0 + 1)) := by
          omega
        rw [harith] at this
        simpa using this

theorem write_cells_err_memory {b : Relocatable} :
    ∀ (vs : List MaybeRelocatable) (m m2 : Memory) (i : Nat) (e : HintError),
      write_cells m b i vs = (m2, some e) → e.isMemoryError = true := by
  intro vs
  induction vs with
  | nil =>
    intro m m2 i e h
    simp [write_cells] at h
  | cons v rest ih =>
    intro m m2 i e h
    unfold write_cells at h
    cases hins : memInsert m ⟨b.segment_index, b.offset + i⟩ v with
    | error e0 =>
      rw [hins] at h
      simp at h
      exact h.2 ▸ memInsert_err_memory hins
    | ok mnext =>
      rw [hins] at h
      exact ih mnext m2 (i + 1) e h

theorem find?_append_none {α : Type} {p : α → Bool} {l1 : List α}
    (l2 : List α) (h : l1.find? p = none) :
    (l1 ++ l2).find? p = l2.find? p := by
  rw [List.find?_append, h, Option.none_or]

/-! Spec-side definitions, written from the specification's words, to be
compared with the definitions translated from the source. -/

/-- The hash of a compound key per the spec (section 4.4): "project its
elements that are Scalars, and compute its hash as: the scalar itself
if exactly one projected scalar exists, otherwise the sponge hash of
the ordered scalar sequence". -/
def specComputedHash (sponge : List Felt → Felt)
    (values : List MaybeRelocatable) : Felt :=
  let scalars := values.filterMap MaybeRelocatable.get_int
  if scalars.length = 1 then scalars.headI else sponge scalars

/-- The spec-side hash-match test: a compound key matches a hash input
exactly when its computed hash equals it; simple keys never match. -/
def specHashMatches (sponge : List Felt → Felt) (h : Felt) : DictKey → Bool
  | .compound vs => decide (specComputedHash sponge vs = h)
  | .simple _ => false

/-- The spec-side prefix filter (section 4.7): "a key matches if its
length is ≥ prefix length and its leading sub-sequence equals the
prefix element-wise", stated with the library's prefix order. -/
def specPfxFilter (pfx : List MaybeRelocatable) :
    DictKey → Option (List MaybeRelocatable)
  | .compound vs => if pfx <+: vs then some vs else none
  | .simple _ => none

theorem compound_key_matches_eq_spec (sponge : List Felt → Felt) (h : Felt)
    (k : DictKey) :
    compound_key_matches sponge h k = specHashMatches sponge h k := by
  cases k with
  | simple v => rfl
  | compound vs =>
    by_cases hc : (vs.filterMap MaybeRelocatable.get_int).length = 1
    · simp [compound_key_matches, specHashMatches, specComputedHash, hc]
    · simp [compound_key_matches, specHashMatches, specComputedHash, hc]

theorem starts_with_pfx_eq_spec (pfx : List MaybeRelocatable) (k : DictKey) :
    starts_with_pfx pfx k = specPfxFilter pfx k := by
  cases k with
  | simple v => rfl
  | compound vs =>
    by_cases hp : pfx <+: vs
    · have hlen : pfx.length ≤ vs.length := hp.length_le
      have htake : vs.take pfx.length = pfx :=
        (List.prefix_iff_eq_take.mp hp).symm
      simp [starts_with_pfx, specPfxFilter, hp, hlen, htake]
    · have : ¬ (pfx.length ≤ vs.length ∧ vs.take pfx.length = pfx) := by
        intro hand
        exact hp (hand.2 ▸ List.take_prefix pfx.length vs)
      rcases Decidable.not_and_iff_or_not.mp this with hlen | htake
      · simp [starts_with_pfx, specPfxFilter, hp, hlen]
      · simp only [starts_with_pfx, specPfxFilter, if_neg hp]
        have hb : (vs.take pfx.length == pfx) = false := by
          simp [htake]
        simp [hb]

/-- C3: the hash used by the hash search is computed by projecting the
key's elements to scalars and taking the scalar itself when exactly one
projected scalar exists, otherwise the sponge hash of the ordered
scalar sequence: the source's match test coincides pointwise with the
spec's, the shared search helper resolves the first key matching the
spec hash, a single-scalar key hashes to its scalar, and an all-scalar
key of length at least 2 hashes to the sponge of its scalars. -/
theorem spec_c3_hash_rule :
    (∀ (sponge : List Felt → Felt) (h : Felt) (k : DictKey),
      compound_key_matches sponge h k = specHashMatches sponge h k)
    ∧ (∀ (sponge : List Felt → Felt) (h : Felt) (t : DictTracker),
      get_preimage_for_hashed_key sponge h t =
        match t.keys.find? (specHashMatches sponge h) with
        | some k => Except.ok k
        | none => Except.error (.noPreimageFound h))
    ∧ (∀ (sponge : List Felt → Felt) (x : Felt),
      specComputedHash sponge [.int x] = x)
    ∧ (∀ (sponge : List Felt → Felt) (xs : List Felt), 2 ≤ xs.length →
      specComputedHash sponge (xs.map .int) = sponge xs) := by
  refine ⟨compound_key_matches_eq_spec, ?_, ?_, ?_⟩
  · intro sponge h t
    have : compound_key_matches sponge h = specHashMatches sponge h :=
      funext (compound_key_matches_eq_spec sponge h)
    rw [get_preimage_for_hashed_key, this]
  · intro sponge x
    simp [specComputedHash, MaybeRelocatable.get_int]
  · intro sponge xs hlen
    have hproj : (xs.map MaybeRelocatable.int).filterMap
        MaybeRelocatable.get_int = xs := by
      rw [List.filterMap_map]
      have hcomp : MaybeRelocatable.get_int ∘ MaybeRelocatable.int =
          fun x => some x := funext (fun _ => rfl)
      rw [hcomp, List.filterMap_some]
    have hne : xs.length ≠ 1 := by omega
    simp [specComputedHash, hproj, hne]

/-- Witness for C3 at a concrete input: the all-scalar key `[10, 20]`
hashes to the sponge of `[10, 20]`. -/
theorem spec_c3_witness :
    specComputedHash (fun l => l.sum)
      (([10, 20] : List Felt).map .int) = ([10, 20] : List Felt).sum :=
  spec_c3_hash_rule.2.2.2 (fun l => l.sum) [10, 20] (by decide)

/-- C7: prefix enumeration matches exactly the compound keys whose leading
sub-sequence equals the queried sequence, complete and in tracker
insertion order: the source's collection coincides with the spec-side
prefix filter over the keys in insertion order; on the example tracker
holding `[10,1]`, `[20,1]`, `[10,2]` in that insertion order, the query
for `[10]` returns `[10,1]` then `[10,2]`, and a query no key starts
with returns zero matches. -/
theorem spec_c7_prefix_enumeration :
    (∀ (pfx : List MaybeRelocatable) (t : DictTracker),
      matching_preimages pfx t = t.keys.filterMap (specPfxFilter pfx))
    ∧ matching_preimages [.int 10]
        ⟨[(.compound [.int 10, .int 1], .int 0),
          (.compound [.int 20, .int 1], .int 0),
          (.compound [.int 10, .int 2], .int 0)], ⟨1, 0⟩, none⟩ =
        [[.int 10, .int 1], [.int 10, .int 2]]
    ∧ matching_preimages [.int 30]
        ⟨[(.compound [.int 10, .int 1], .int 0),
          (.compound [.int 20, .int 1], .int 0),
          (.compound [.int 10, .int 2], .int 0)], ⟨1, 0⟩, none⟩ = [] := by
  refine ⟨?_, by decide, by decide⟩
  intro pfx t
  unfold matching_preimages
  have : starts_with_pfx pfx = specPfxFilter pfx :=
    funext (starts_with_pfx_eq_spec pfx)
  rw [this]

theorem advanceCursor_get_value (t : DictTracker) (n : Nat) (k : DictKey) :
    (advanceCursor t n).get_value k = t.get_value k := rfl

/-- C2: writing value V under key K via the Write operation and then
reading K returns V: at tracker level, `insert_value` then `get_value`
yields V for any key and any prior tracker state (also when K was
absent, which establishes the entry); at hint level, a `hashdict_write`
whose operands resolve to key K and value V succeeds and a subsequent
`hashdict_read` of the same key writes V to the output operand. -/
theorem spec_c2_write_then_read :
    (∀ (t : DictTracker) (k : DictKey) (v : MaybeRelocatable),
      (t.insert_value k v).get_value k = .ok v)
    ∧ ∀ (ids ids2 : Ids) (s : S) (p p2 kp kp2 out : Relocatable)
        (klf klf2 : Felt) (kl kl2 : Nat) (K : DictKey)
        (V oldv : MaybeRelocatable) (t0 : DictTracker) (mem2 : Memory),
        get_ptr_from_var_name ids s.mem "dict_ptr" = .ok p →
        dmFind s.dm p.segment_index = some t0 →
        get_ptr_from_var_name ids s.mem "key" = .ok kp →
        get_integer_from_var_name ids s.mem "key_len" = .ok klf →
        felt_to_usize klf = .ok kl →
        build_compound_key s.mem kp kl = .ok K →
        get_maybe_relocatable_from_var_name ids s.mem "new_value" = .ok V →
        t0.get_value K = .ok oldv →
        memInsert s.mem { p with offset := p.offset + 1 } oldv = .ok mem2 →
        get_ptr_from_var_name ids2 mem2 "dict_ptr" = .ok p2 →
        p2.segment_index = p.segment_index →
        get_ptr_from_var_name ids2 mem2 "key" = .ok kp2 →
        get_integer_from_var_name ids2 mem2 "key_len" = .ok klf2 →
        felt_to_usize klf2 = .ok kl2 →
        build_compound_key mem2 kp2 kl2 = .ok K →
        idAddr ids2 "value" = .ok out →
        memGet mem2 out = none →
        ∃ s1 s2, hashdict_write ids s = .ok s1 ∧ s1.mem = mem2 ∧
          hashdict_read ids2 s1 = .ok s2 ∧ memGet s2.mem out = some V := by
  refine ⟨get_value_insert_value, ?_⟩
  intro ids ids2 s p p2 kp kp2 out klf klf2 kl kl2 K V oldv t0 mem2
  intro hdp htr hkey hkl hklu hbk hnv hgv haud hdp2 hseg hkey2 hkl2 hklu2
    hbk2 hout hfresh
  have h1 : dmFind (dmSet s.dm p.segment_index
      (advanceCursor t0 DICT_ACCESS_SIZE)) p.segment_index =
      some (advanceCursor t0 DICT_ACCESS_SIZE) :=
    dmFind_dmSet_same _ htr
  have h2 : dmFind (dmSet (dmSet s.dm p.segment_index
      (advanceCursor t0 DICT_ACCESS_SIZE)) p.segment_index
      ((advanceCursor t0 DICT_ACCESS_SIZE).insert_value K V))
      p.segment_index =
      some ((advanceCursor t0 DICT_ACCESS_SIZE).insert_value K V) :=
    dmFind_dmSet_same _ h1
  have hv2 : ((advanceCursor t0 DICT_ACCESS_SIZE).insert_value
      K V).get_value K = .ok V :=
    get_value_insert_value _ K V
  have hinsOut : memInsert mem2 out V = .ok ((out, V) :: mem2) :=
    memInsert_fresh V hfresh
  refine ⟨⟨mem2, s.nextSegment,
      dmSet (dmSet s.dm p.segment_index
        (advanceCursor t0 DICT_ACCESS_SIZE)) p.segment_index
        ((advanceCursor t0 DICT_ACCESS_SIZE).insert_value K V)⟩,
    ⟨(out, V) :: mem2, s.nextSegment,
      dmSet (dmSet (dmSet s.dm p.segment_index
          (advanceCursor t0 DICT_ACCESS_SIZE)) p.segment_index
          ((advanceCursor t0 DICT_ACCESS_SIZE).insert_value K V))
        p.segment_index
        (advanceCursor ((advanceCursor t0 DICT_ACCESS_SIZE).insert_value
          K V) DICT_ACCESS_SIZE)⟩, ?_, rfl, ?_, ?_⟩
  · unfold hashdict_write
    simp only [hdp, DictManager.get_tracker, htr, hkey, hkl, hklu, hbk,
      hnv, advanceCursor_get_value, hgv, haud]
  · unfold hashdict_read
    simp only [hdp2, DictManager.get_tracker, hseg, h2, hkey2, hkl2,
      hklu2, hbk2, advanceCursor_get_value, hv2,
      insert_value_from_var_name, hout, hinsOut]
  · simp [memGet_cons]

/-! A concrete write-then-read scenario: operand cells in segment 0, the
dictionary backed by segment 1 with a default-dictionary tracker, key
`[10, 20]` and new value 7. -/

def exW_ids : Ids :=
  [("dict_ptr", ⟨0, 0⟩), ("key", ⟨0, 1⟩), ("key_len", ⟨0, 2⟩),
   ("new_value", ⟨0, 3⟩), ("value", ⟨0, 4⟩)]

def exW_mem : Memory :=
  [(⟨0, 0⟩, .relocatableValue ⟨1, 0⟩), (⟨0, 1⟩, .relocatableValue ⟨0, 10⟩),
   (⟨0, 2⟩, .int 2), (⟨0, 3⟩, .int 7),
   (⟨0, 10⟩, .int 10), (⟨0, 11⟩, .int 20)]

def exW_t0 : DictTracker := ⟨[], ⟨1, 0⟩, some (.int 0)⟩

def exW_s : S := ⟨exW_mem, 2, [(1, exW_t0)]⟩

def exW_mem2 : Memory := (⟨1, 1⟩, .int 0) :: exW_mem

/-- Witness for C2 at the concrete scenario: writing 7 under the
previously absent key `[10, 20]` succeeds and the subsequent read
returns 7. -/
theorem spec_c2_witness :
    ∃ s1 s2, hashdict_write exW_ids exW_s = .ok s1 ∧ s1.mem = exW_mem2 ∧
      hashdict_read exW_ids s1 = .ok s2 ∧
      memGet s2.mem ⟨0, 4⟩ = some (.int 7) :=
  spec_c2_write_then_read.2 exW_ids exW_ids exW_s ⟨1, 0⟩ ⟨1, 0⟩ ⟨0, 10⟩
    ⟨0, 10⟩ ⟨0, 4⟩ 2 2 2 2 (.compound [.int 10, .int 20]) (.int 7) (.int 0)
    exW_t0 exW_mem2 rfl rfl rfl rfl rfl rfl rfl rfl rfl rfl
    rfl rfl rfl rfl rfl rfl rfl

theorem get_tracker_ok {dm : DictManager} {p : Relocatable}
    {t : DictTracker} (h : dm.get_tracker p = .ok t) :
    dmFind dm p.segment_index = some t := by
  unfold DictManager.get_tracker at h
  cases hf : dmFind dm p.segment_index with
  | some t0 => rw [hf] at h; cases h; rfl
  | none => rw [hf] at h; cases h

theorem get_tracker_err {dm : DictManager} {p : Relocatable}
    {e : HintError} (h : dm.get_tracker p = .error e) :
    dmFind dm p.segment_index = none := by
  unfold DictManager.get_tracker at h
  cases hf : dmFind dm p.segment_index with
  | some t0 => rw [hf] at h; cases h
  | none => rfl

theorem insert_value_current_ptr (t : DictTracker) (k : DictKey)
    (v : MaybeRelocatable) : (t.insert_value k v).current_ptr = t.current_ptr
  := rfl

theorem foldl_insert_current_ptr (l : List Felt) :
    ∀ t : DictTracker,
      (l.foldl (fun t0 address =>
        t0.insert_value (.compound [.int address]) (.int 1)) t).current_ptr =
      t.current_ptr := by
  induction l with
  | nil => intro t; rfl
  | cons a rest ih =>
    intro t
    simp only [List.foldl_cons]
    rw [ih]
    rfl

/-- Outcome characterization of `hashdict_read`: either it fails before
the tracker is resolved and the state is untouched, or the tracker is
resolved, the cursor is advanced, and the hint either fails in the
advanced state or succeeds in the advanced state with only the output
memory additionally updated. -/
theorem hashdict_read_cases (ids : Ids) (s : S) :
    (∃ e, hashdict_read ids s = .err e s ∧
      (get_ptr_from_var_name ids s.mem "dict_ptr" = .error e ∨
       ∃ p, get_ptr_from_var_name ids s.mem "dict_ptr" = .ok p ∧
         dmFind s.dm p.segment_index = none)) ∨
    (∃ p t0,
      get_ptr_from_var_name ids s.mem "dict_ptr" = .ok p ∧
      dmFind s.dm p.segment_index = some t0 ∧
      ((∃ e, hashdict_read ids s = .err e
          { s with dm := dmSet s.dm p.segment_index (advanceCursor t0 DICT_ACCESS_SIZE) }) ∨
       (∃ mem2, hashdict_read ids s = .ok
          { s with mem := mem2, dm := dmSet s.dm p.segment_index (advanceCursor t0 DICT_ACCESS_SIZE) }))) := by
  cases hdp : get_ptr_from_var_name ids s.mem "dict_ptr" with
  | error e =>
    left
    exact ⟨e, by unfold hashdict_read; simp only [hdp], Or.inl rfl⟩
  | ok p =>
    cases htr : DictManager.get_tracker s.dm p with
    | error e =>
      left
      refine ⟨e, by unfold hashdict_read; simp only [hdp, htr],
        Or.inr ⟨p, rfl, get_tracker_err htr⟩⟩
    | ok t0 =>
      right
      refine ⟨p, t0, rfl, get_tracker_ok htr, ?_⟩
      cases hkey : get_ptr_from_var_name ids s.mem "key" with
      | error e =>
        exact Or.inl ⟨e, by
          unfold hashdict_read; simp only [hdp, htr, hkey]⟩
      | ok kp =>
      cases hkl : get_integer_from_var_name ids s.mem "key_len" with
      | error e =>
        exact Or.inl ⟨e, by
          unfold hashdict_read; simp only [hdp, htr, hkey, hkl]⟩
      | ok klf =>
      cases hklu : felt_to_usize klf with
      | error e =>
        exact Or.inl ⟨e, by
          unfold hashdict_read; simp only [hdp, htr, hkey, hkl, hklu]⟩
      | ok kl =>
      cases hbk : build_compound_key s.mem kp kl with
      | error e =>
        exact Or.inl ⟨e, by
          unfold hashdict_read; simp only [hdp, htr, hkey, hkl, hklu, hbk]⟩
      | ok K =>
      cases hgv : (advanceCursor t0 DICT_ACCESS_SIZE).get_value K with
      | error e =>
        exact Or.inl ⟨e, by
          unfold hashdict_read
          simp only [hdp, htr, hkey, hkl, hklu, hbk, hgv]⟩
      | ok v =>
      cases hiv : insert_value_from_var_name ids s.mem "value" v with
      | error e =>
        exact Or.inl ⟨e, by
          unfold hashdict_read
          simp only [hdp, htr, hkey, hkl, hklu, hbk, hgv, hiv]⟩
      | ok mem2 =>
        exact Or.inr ⟨mem2, by
          unfold hashdict_read
          simp only [hdp, htr, hkey, hkl, hklu, hbk, hgv, hiv]⟩

/-- Outcome characterization of `hashdict_write`, analogous to
`hashdict_read_cases`; on success the advanced tracker additionally
receives the inserted key/value pair. -/
theorem hashdict_write_cases (ids : Ids) (s : S) :
    (∃ e, hashdict_write ids s = .err e s ∧
      (get_ptr_from_var_name ids s.mem "dict_ptr" = .error e ∨
       ∃ p, get_ptr_from_var_name ids s.mem "dict_ptr" = .ok p ∧
         dmFind s.dm p.segment_index = none)) ∨
    (∃ p t0,
      get_ptr_from_var_name ids s.mem "dict_ptr" = .ok p ∧
      dmFind s.dm p.segment_index = some t0 ∧
      ((∃ e, hashdict_write ids s = .err e
          { s with dm := dmSet s.dm p.segment_index (advanceCursor t0 DICT_ACCESS_SIZE) }) ∨
       (∃ K V mem2, hashdict_write ids s = .ok
          { s with mem := mem2, dm := dmSet (dmSet s.dm p.segment_index (advanceCursor t0 DICT_ACCESS_SIZE)) p.segment_index ((advanceCursor t0 DICT_ACCESS_SIZE).insert_value K V) }))) := by
  cases hdp : get_ptr_from_var_name ids s.mem "dict_ptr" with
  | error e =>
    left
    exact ⟨e, by unfold hashdict_write; simp only [hdp], Or.inl rfl⟩
  | ok p =>
    cases htr : DictManager.get_tracker s.dm p with
    | error e =>
      left
      refine ⟨e, by unfold hashdict_write; simp only [hdp, htr],
        Or.inr ⟨p, rfl, get_tracker_err htr⟩⟩
    | ok t0 =>
      right
      refine ⟨p, t0, rfl, get_tracker_ok htr, ?_⟩
      cases hkey : get_ptr_from_var_name ids s.mem "key" with
      | error e =>
        exact Or.inl ⟨e, by
          unfold hashdict_write; simp only [hdp, htr, hkey]⟩
      | ok kp =>
      cases hkl : get_integer_from_var_name ids s.mem "key_len" with
      | error e =>
        exact Or.inl ⟨e, by
          unfold hashdict_write; simp only [hdp, htr, hkey, hkl]⟩
      | ok klf =>
      cases hklu : felt_to_usize klf with
      | error e =>
        exact Or.inl ⟨e, by
          unfold hashdict_write; simp only [hdp, htr, hkey, hkl, hklu]⟩
      | ok kl =>
      cases hbk : build_compound_key s.mem kp kl with
      | error e =>
        exact Or.inl ⟨e, by
          unfold hashdict_write; simp only [hdp, htr, hkey, hkl, hklu, hbk]⟩
      | ok K =>
      cases hnv : get_maybe_relocatable_from_var_name ids s.mem "new_value"
        with
      | error e =>
        exact Or.inl ⟨e, by
          unfold hashdict_write
          simp only [hdp, htr, hkey, hkl, hklu, hbk, hnv]⟩
      | ok V =>
      cases hgv : (advanceCursor t0 DICT_ACCESS_SIZE).get_value K with
      | error e =>
        exact Or.inl ⟨e, by
          unfold hashdict_write
          simp only [hdp, htr, hkey, hkl, hklu, hbk, hnv, hgv]⟩
      | ok oldv =>
      cases hins : memInsert s.mem { p with offset := p.offset + 1 } oldv
        with
      | error e0 =>
        refine Or.inl ⟨.unknownMemoryCell { p with offset := p.offset + 1 },
          by
            unfold hashdict_write
            simp only [hdp, htr, hkey, hkl, hklu, hbk, hnv, hgv, hins]⟩
      | ok mem2 =>
        exact Or.inr ⟨K, V, mem2, by
          unfold hashdict_write
          simp only [hdp, htr, hkey, hkl, hklu, hbk, hnv, hgv, hins]⟩

theorem dmSet_advance_data {dm : DictManager} {g0 : Nat} {t0 : DictTracker}
    (n : Nat) (h : dmFind dm g0 = some t0) (g : Nat) :
    (dmFind (dmSet dm g0 (advanceCursor t0 n)) g).map (fun t => t.data) =
      (dmFind dm g).map (fun t => t.data) := by
  by_cases hg : g0 = g
  · subst hg
    rw [dmFind_dmSet_same (advanceCursor t0 n) h, h]
    rfl
  · rw [dmFind_dmSet_ne dm (advanceCursor t0 n) hg]

/-- C10: if the Write operation fails after its cursor advance — the
old-value resolution or the audit-slot write at `dict_ptr + 1` failing —
the tracker's key-to-value mapping is unchanged: on every error outcome
of `hashdict_write`, every tracker holds exactly the data it held
before. -/
theorem spec_c10_write_failure_no_insert :
    ∀ (ids : Ids) (s s2 : S) (e : HintError),
      hashdict_write ids s = .err e s2 →
      ∀ g, (dmFind s2.dm g).map (fun t => t.data) =
        (dmFind s.dm g).map (fun t => t.data) := by
  intro ids s s2 e hw g
  rcases hashdict_write_cases ids s with ⟨e1, heq, _⟩ |
    ⟨p, t0, hdp, htr, ⟨e1, heq⟩ | ⟨K, V, mem2, heq⟩⟩
  · rw [heq] at hw
    injection hw with h1 h2
    subst h2
    rfl
  · rw [heq] at hw
    injection hw with h1 h2
    subst h2
    exact dmSet_advance_data DICT_ACCESS_SIZE htr g
  · rw [heq] at hw
    cases hw

/-- Witness for C10 at a concrete input: a write against a tracker with
no default whose key is absent fails at old-value resolution, and the
tracker's mapping stays empty while its cursor advanced. -/
theorem spec_c10_witness :
    (dmFind (S.dm
        (match hashdict_write exW_ids
            ⟨exW_mem, 2, [(1, ⟨[], ⟨1, 0⟩, none⟩)]⟩ with
          | .err _ s2 => s2
          | .ok s2 => s2
          | .panicked => ⟨[], 0, []⟩)) 1).map (fun t => t.data) =
      (dmFind [(1, (⟨[], ⟨1, 0⟩, none⟩ : DictTracker))] 1).map
        (fun t => t.data) := by
  have h : hashdict_write exW_ids ⟨exW_mem, 2, [(1, ⟨[], ⟨1, 0⟩, none⟩)]⟩ =
      .err (.noValueForKey (.compound [.int 10, .int 20]))
        ⟨exW_mem, 2, [(1, ⟨[], ⟨1, 3⟩, none⟩)]⟩ := rfl
  have := spec_c10_write_failure_no_insert exW_ids
    ⟨exW_mem, 2, [(1, ⟨[], ⟨1, 0⟩, none⟩)]⟩
    ⟨exW_mem, 2, [(1, ⟨[], ⟨1, 3⟩, none⟩)]⟩
    (.noValueForKey (.compound [.int 10, .int 20])) h 1
  rw [h]
  exact this

/-- C4: for Read and Write the cursor advance happens before any key,
lookup or memory failure can surface and is never undone: whenever the
dictionary pointer resolves to an existing tracker and the hint then
returns an error, the target tracker's cursor has still advanced by
exactly one record width. -/
theorem spec_c4_cursor_advance_on_error :
    (∀ (ids : Ids) (s s2 : S) (p : Relocatable) (t0 : DictTracker)
        (e : HintError),
      get_ptr_from_var_name ids s.mem "dict_ptr" = .ok p →
      dmFind s.dm p.segment_index = some t0 →
      hashdict_read ids s = .err e s2 →
      ∃ t', dmFind s2.dm p.segment_index = some t' ∧
        t'.current_ptr.offset =
          t0.current_ptr.offset + DICT_ACCESS_SIZE)
    ∧ (∀ (ids : Ids) (s s2 : S) (p : Relocatable) (t0 : DictTracker)
        (e : HintError),
      get_ptr_from_var_name ids s.mem "dict_ptr" = .ok p →
      dmFind s.dm p.segment_index = some t0 →
      hashdict_write ids s = .err e s2 →
      ∃ t', dmFind s2.dm p.segment_index = some t' ∧
        t'.current_ptr.offset =
          t0.current_ptr.offset + DICT_ACCESS_SIZE) := by
  constructor
  · intro ids s s2 p t0 e hdp htr hw
    rcases hashdict_read_cases ids s with ⟨e1, heq, hwhy⟩ |
      ⟨p1, t1, hdp1, htr1, ⟨e1, heq⟩ | ⟨mem2, heq⟩⟩
    · rcases hwhy with hbad | ⟨p1, hp1, hnone⟩
      · rw [hdp] at hbad; cases hbad
      · rw [hdp] at hp1
        injection hp1 with hp1
        rw [← hp1, htr] at hnone
        cases hnone
    · rw [hdp] at hdp1
      injection hdp1 with hdp1
      subst hdp1
      rw [htr] at htr1
      injection htr1 with htr1
      subst htr1
      rw [heq] at hw
      injection hw with h1 h2
      subst h2
      exact ⟨advanceCursor t0 DICT_ACCESS_SIZE,
        dmFind_dmSet_same _ htr, rfl⟩
    · rw [heq] at hw
      cases hw
  · intro ids s s2 p t0 e hdp htr hw
    rcases hashdict_write_cases ids s with ⟨e1, heq, hwhy⟩ |
      ⟨p1, t1, hdp1, htr1, ⟨e1, heq⟩ | ⟨K, V, mem2, heq⟩⟩
    · rcases hwhy with hbad | ⟨p1, hp1, hnone⟩
      · rw [hdp] at hbad; cases hbad
      · rw [hdp] at hp1
        injection hp1 with hp1
        rw [← hp1, htr] at hnone
        cases hnone
    · rw [hdp] at hdp1
      injection hdp1 with hdp1
      subst hdp1
      rw [htr] at htr1
      injection htr1 with htr1
      subst htr1
      rw [heq] at hw
      injection hw with h1 h2
      subst h2
      exact ⟨advanceCursor t0 DICT_ACCESS_SIZE,
        dmFind_dmSet_same _ htr, rfl⟩
    · rw [heq] at hw
      cases hw

/-- Witness for C4 at a concrete input: the failing write of
`spec_c10_witness`'s scenario leaves the cursor advanced from offset 0
to offset 3. -/
theorem spec_c4_witness :
    ∃ t', dmFind (S.dm ⟨exW_mem, 2, [(1, ⟨[], ⟨1, 3⟩, none⟩)]⟩) 1 =
        some t' ∧
      t'.current_ptr.offset =
        (DictTracker.current_ptr ⟨[], ⟨1, 0⟩, none⟩).offset +
          DICT_ACCESS_SIZE :=
  spec_c4_cursor_advance_on_error.2 exW_ids
    ⟨exW_mem, 2, [(1, ⟨[], ⟨1, 0⟩, none⟩)]⟩
    ⟨exW_mem, 2, [(1, ⟨[], ⟨1, 3⟩, none⟩)]⟩ ⟨1, 0⟩ ⟨[], ⟨1, 0⟩, none⟩
    (.noValueForKey (.compound [.int 10, .int 20])) rfl rfl rfl

/-- C5: for Hashed Read, when no stored compound key's computed hash
equals the input h, the operation looks up the simple key h directly:
if that key has an associated value the hint succeeds and writes it to
the output operand, and otherwise it fails with the no-value-found
error naming the simple key. -/
theorem spec_c5_hashed_read_fallback :
    ∀ (sponge : List Felt → Felt) (ids : Ids) (s : S) (h : Felt)
      (p : Relocatable) (t : DictTracker),
      get_integer_from_var_name ids s.mem "key" = .ok h →
      get_ptr_from_var_name ids s.mem "dict_ptr_stop" = .ok p →
      dmFind s.dm p.segment_index = some t →
      t.keys.find? (compound_key_matches sponge h) = none →
      ((∀ v out, t.get_value (.simple (.int h)) = .ok v →
          idAddr ids "value" = .ok out → memGet s.mem out = none →
          hashdict_read_from_key sponge ids s =
            .ok { s with mem := (out, v) :: s.mem })
       ∧ (∀ e, t.get_value (.simple (.int h)) = .error e →
          hashdict_read_from_key sponge ids s =
            .err (.noValueFound (.simple (.int h))) s)) := by
  intro sponge ids s h p t hk hdp htr hfind
  have htrk : s.dm.get_tracker p = .ok t := by
    unfold DictManager.get_tracker
    rw [htr]
  have hpre : get_preimage_for_hashed_key sponge h t =
      .error (.noPreimageFound h) := by
    unfold get_preimage_for_hashed_key
    rw [hfind]
  constructor
  · intro v out hgv hout hfresh
    have hins : memInsert s.mem out v = .ok ((out, v) :: s.mem) :=
      memInsert_fresh v hfresh
    unfold hashdict_read_from_key
    simp only [hk, hdp, htrk, hpre, hgv, insert_value_from_var_name,
      hout, hins]
  · intro e hgv
    unfold hashdict_read_from_key
    simp only [hk, hdp, htrk, hpre, hgv]

/-- Concrete fallback scenario for C5: tracker holding only the simple
key 5 with value 42, so no compound key matches the hash input 5. -/
def exF_ids : Ids :=
  [("key", ⟨0, 0⟩), ("dict_ptr_stop", ⟨0, 1⟩), ("value", ⟨0, 2⟩)]

def exF_mem : Memory :=
  [(⟨0, 0⟩, .int 5), (⟨0, 1⟩, .relocatableValue ⟨1, 0⟩)]

def exF_t : DictTracker := ⟨[(.simple (.int 5), .int 42)], ⟨1, 0⟩, none⟩

/-- Witness for C5 at the concrete fallback scenario: the hashed read of
5 falls back to the simple key 5 and returns 42. -/
theorem spec_c5_witness :
    hashdict_read_from_key (fun l => l.sum) exF_ids
      ⟨exF_mem, 2, [(1, exF_t)]⟩ =
      .ok ⟨(⟨0, 2⟩, .int 42) :: exF_mem, 2, [(1, exF_t)]⟩ :=
  (spec_c5_hashed_read_fallback (fun l => l.sum) exF_ids
    ⟨exF_mem, 2, [(1, exF_t)]⟩ 5 ⟨1, 0⟩ exF_t rfl rfl rfl rfl).1
    (.int 42) ⟨0, 2⟩ rfl rfl rfl

/-- C6: Preimage Recovery accepts only compound keys — the shared hash
search never returns a simple key; when no compound key's computed hash
equals the input the hint fails with the no-preimage-found error; and
on a successful search the hint writes the matched key's full ordered
element sequence starting at the output address and the sequence length
to the length operand. -/
theorem spec_c6_preimage_recovery :
    (∀ (sponge : List Felt → Felt) (h : Felt) (t : DictTracker)
        (k : DictKey),
      get_preimage_for_hashed_key sponge h t = .ok k →
      ∃ vs, k = .compound vs)
    ∧ (∀ (sponge : List Felt → Felt) (ids : Ids) (s : S) (h : Felt)
        (p : Relocatable) (t : DictTracker),
      get_integer_from_var_name ids s.mem "key" = .ok h →
      get_ptr_from_var_name ids s.mem "dict_ptr_stop" = .ok p →
      dmFind s.dm p.segment_index = some t →
      t.keys.find? (compound_key_matches sponge h) = none →
      get_preimage_for_key sponge ids s = .err (.noPreimageFound h) s)
    ∧ (∀ (sponge : List Felt → Felt) (ids : Ids) (s : S) (h : Felt)
        (p d alen : Relocatable) (t : DictTracker)
        (vs : List MaybeRelocatable) (m2 : Memory),
      get_integer_from_var_name ids s.mem "key" = .ok h →
      get_ptr_from_var_name ids s.mem "dict_ptr_stop" = .ok p →
      dmFind s.dm p.segment_index = some t →
      t.keys.find? (compound_key_matches sponge h) = some (.compound vs) →
      get_ptr_from_var_name ids s.mem "preimage_data" = .ok d →
      write_cells s.mem d 0 vs = (m2, none) →
      idAddr ids "preimage_len" = .ok alen →
      memGet m2 alen = none →
      get_preimage_for_key sponge ids s =
        .ok { s with mem := (alen, .int vs.length) :: m2 } ∧
      (∀ j, j < vs.length →
        memGet ((alen, .int vs.length) :: m2)
          ⟨d.segment_index, d.offset + j⟩ = some (vs.getD j (.int 0))) ∧
      memGet ((alen, .int vs.length) :: m2) alen =
        some (.int vs.length)) := by
  refine ⟨?_, ?_, ?_⟩
  · intro sponge h t k hpre
    unfold get_preimage_for_hashed_key at hpre
    cases hf : t.keys.find? (compound_key_matches sponge h) with
    | none => rw [hf] at hpre; cases hpre
    | some k0 =>
      rw [hf] at hpre
      injection hpre with hpre
      subst hpre
      have hp := List.find?_some hf
      cases k0 with
      | simple v => simp [compound_key_matches] at hp
      | compound vs => exact ⟨vs, rfl⟩
  · intro sponge ids s h p t hk hdp htr hfind
    have htrk : s.dm.get_tracker p = .ok t := by
      unfold DictManager.get_tracker
      rw [htr]
    have hpre : get_preimage_for_hashed_key sponge h t =
        .error (.noPreimageFound h) := by
      unfold get_preimage_for_hashed_key
      rw [hfind]
    unfold get_preimage_for_key
    simp only [hk, hdp, htrk, hpre]
  · intro sponge ids s h p d alen t vs m2 hk hdp htr hfind hd hwc halen
      hfresh
    have htrk : s.dm.get_tracker p = .ok t := by
      unfold DictManager.get_tracker
      rw [htr]
    have hpre : get_preimage_for_hashed_key sponge h t =
        .ok (.compound vs) := by
      unfold get_preimage_for_hashed_key
      rw [hfind]
    have hins : memInsert m2 alen (.int vs.length) =
        .ok ((alen, .int vs.length) :: m2) :=
      memInsert_fresh _ hfresh
    refine ⟨?_, ?_, ?_⟩
    · unfold get_preimage_for_key
      simp only [hk, hdp, htrk, hpre, hd, hwc, insert_value_from_var_name,
        halen, hins]
    · intro j hj
      have hcell := write_cells_ok_get vs s.mem m2 0 hwc j hj
      rw [Nat.zero_add] at hcell
      rw [memGet_cons]
      have hne : alen ≠ (⟨d.segment_index, d.offset + j⟩ : Relocatable) := by
        intro hcontra
        rw [hcontra] at hfresh
        rw [hfresh] at hcell
        cases hcell
      rw [if_neg hne]
      exact hcell
    · simp [memGet_cons]

/-- Concrete preimage-recovery scenario for C6: tracker holding the
compound key `[7, 8]`, queried with its sponge hash. -/
def exP_ids : Ids :=
  [("key", ⟨0, 0⟩), ("dict_ptr_stop", ⟨0, 1⟩),
   ("preimage_data", ⟨0, 2⟩), ("preimage_len", ⟨0, 3⟩)]

def exP_mem : Memory :=
  [(⟨0, 0⟩, .int 15), (⟨0, 1⟩, .relocatableValue ⟨1, 0⟩),
   (⟨0, 2⟩, .relocatableValue ⟨2, 0⟩)]

def exP_t : DictTracker :=
  ⟨[(.compound [.int 7, .int 8], .int 1)], ⟨1, 0⟩, none⟩

/-- Witness for C6 at the concrete scenario: recovery of the preimage
`[7, 8]` from its sponge hash 15 writes the two elements and length 2. -/
theorem spec_c6_witness :
    get_preimage_for_key (fun l => l.sum) exP_ids
        ⟨exP_mem, 3, [(1, exP_t)]⟩ =
      .ok ⟨(⟨0, 3⟩, .int 2) :: (⟨2, 1⟩, .int 8) :: (⟨2, 0⟩, .int 7) ::
        exP_mem, 3, [(1, exP_t)]⟩ ∧
    memGet ((⟨0, 3⟩, .int 2) :: (⟨2, 1⟩, .int 8) :: (⟨2, 0⟩, .int 7) ::
      exP_mem) ⟨2, 0⟩ = some (.int 7) :=
  have hmain := spec_c6_preimage_recovery.2.2 (fun l => l.sum) exP_ids
    ⟨exP_mem, 3, [(1, exP_t)]⟩ 15 ⟨1, 0⟩ ⟨2, 0⟩ ⟨0, 3⟩ exP_t
    [.int 7, .int 8] ((⟨2, 1⟩, .int 8) :: (⟨2, 0⟩, .int 7) :: exP_mem)
    rfl rfl rfl rfl rfl rfl rfl rfl
  ⟨hmain.1, by
    have := hmain.2.1 0 (by decide)
    simpa using this⟩

/-! A cross-tracker copy scenario in which the destination tracker already
holds a compound key whose computed hash equals the queried hash: the
single-scalar key `[5]` in the destination and the key `[5, addr]` in
the source both hash to 5 without any sponge collision. -/

def exC_ids : Ids :=
  [("source_ptr_stop", ⟨0, 0⟩), ("dest_ptr", ⟨0, 1⟩),
   ("source_key", ⟨0, 2⟩)]

def exC_ids2 : Ids :=
  [("key", ⟨0, 3⟩), ("dict_ptr_stop", ⟨0, 4⟩), ("value", ⟨0, 5⟩)]

def exC_mem : Memory :=
  [(⟨0, 0⟩, .relocatableValue ⟨1, 0⟩), (⟨0, 1⟩, .relocatableValue ⟨2, 0⟩),
   (⟨0, 2⟩, .int 5), (⟨0, 3⟩, .int 5), (⟨0, 4⟩, .relocatableValue ⟨2, 0⟩)]

def exC_srcT : DictTracker :=
  ⟨[(.compound [.int 5, .relocatableValue ⟨9, 9⟩], .int 9)], ⟨1, 0⟩, none⟩

def exC_dstT : DictTracker :=
  ⟨[(.compound [.int 5], .int 3)], ⟨2, 0⟩, none⟩

def exC_s : S := ⟨exC_mem, 3, [(1, exC_srcT), (2, exC_dstT)]⟩

def exC_dstT1 : DictTracker :=
  ⟨[(.compound [.int 5], .int 3),
    (.compound [.int 5, .relocatableValue ⟨9, 9⟩], .int 9)], ⟨2, 3⟩, none⟩

def exC_s1 : S := ⟨exC_mem, 3, [(1, exC_srcT), (2, exC_dstT1)]⟩

/-- Counterexample to C8 as stated: after copying the entry found via
hash 5 (the source key `[5, addr]`, value 9) into the destination, a
Hashed Read against the destination with hash 5 returns 3 — the value
of the destination's pre-existing key `[5]`, which also hashes to 5 and
precedes the copied entry in insertion order — not the copied value 9. -/
theorem spec_c8_counterexample :
    copy_hashdict_tracker_entry (fun l => l.sum) exC_ids exC_s =
      .ok exC_s1 ∧
    hashdict_read_from_key (fun l => l.sum) exC_ids2 exC_s1 =
      .ok ⟨(⟨0, 5⟩, .int 3) :: exC_mem, 3, [(1, exC_srcT), (2, exC_dstT1)]⟩ ∧
    exC_srcT.get_value (.compound [.int 5, .relocatableValue ⟨9, 9⟩]) =
      .ok (.int 9) ∧
    (MaybeRelocatable.int 3) ≠ (MaybeRelocatable.int 9) :=
  ⟨rfl, rfl, rfl, by decide⟩

/-- C8 (amended): after Cross-Tracker Copy of the entry found via hash h
in source tracker S into a distinct destination tracker D, D's cursor
has advanced by exactly one record width and S is unmodified (mapping
and cursor unchanged); and provided no compound key already stored in D
computes to hash h, a Hashed Read against D with hash h returns the
same value as the original in S. -/
theorem spec_c8_copy_amended :
    ∀ (sponge : List Felt → Felt) (ids ids2 : Ids) (s : S)
      (ps pd pd2 out : Relocatable) (h : Felt) (K : DictKey)
      (v : MaybeRelocatable) (tS tD : DictTracker),
      get_ptr_from_var_name ids s.mem "source_ptr_stop" = .ok ps →
      get_ptr_from_var_name ids s.mem "dest_ptr" = .ok pd →
      dmFind s.dm ps.segment_index = some tS →
      get_integer_from_var_name ids s.mem "source_key" = .ok h →
      get_preimage_for_hashed_key sponge h tS = .ok K →
      tS.get_value K = .ok v →
      ps.segment_index ≠ pd.segment_index →
      dmFind s.dm pd.segment_index = some tD →
      tD.keys.find? (compound_key_matches sponge h) = none →
      get_integer_from_var_name ids2 s.mem "key" = .ok h →
      get_ptr_from_var_name ids2 s.mem "dict_ptr_stop" = .ok pd2 →
      pd2.segment_index = pd.segment_index →
      idAddr ids2 "value" = .ok out →
      memGet s.mem out = none →
      copy_hashdict_tracker_entry sponge ids s =
        .ok { s with dm := dmSet s.dm pd.segment_index ((advanceCursor tD DICT_ACCESS_SIZE).insert_value K v) } ∧
      dmFind (dmSet s.dm pd.segment_index ((advanceCursor tD DICT_ACCESS_SIZE).insert_value K v)) ps.segment_index = some tS ∧
      dmFind (dmSet s.dm pd.segment_index ((advanceCursor tD DICT_ACCESS_SIZE).insert_value K v)) pd.segment_index = some ((advanceCursor tD DICT_ACCESS_SIZE).insert_value K v) ∧
      ((advanceCursor tD DICT_ACCESS_SIZE).insert_value K v).current_ptr.offset = tD.current_ptr.offset + DICT_ACCESS_SIZE ∧
      hashdict_read_from_key sponge ids2
        { s with dm := dmSet s.dm pd.segment_index ((advanceCursor tD DICT_ACCESS_SIZE).insert_value K v) } =
        .ok { s with mem := (out, v) :: s.mem, dm := dmSet s.dm pd.segment_index ((advanceCursor tD DICT_ACCESS_SIZE).insert_value K v) } ∧
      memGet ((out, v) :: s.mem) out = some v := by
  intro sponge ids ids2 s ps pd pd2 out h K v tS tD
  intro h1 h2 h3 h4 h5 h6 h7 h8 h9 h10 h11 h12 h13 h14
  have htrkS : s.dm.get_tracker ps = .ok tS := by
    unfold DictManager.get_tracker
    rw [h3]
  have htrkD : s.dm.get_tracker pd = .ok tD := by
    unfold DictManager.get_tracker
    rw [h8]
  have hKm : compound_key_matches sponge h K = true := by
    unfold get_preimage_for_hashed_key at h5
    cases hf : tS.keys.find? (compound_key_matches sponge h) with
    | none => rw [hf] at h5; cases h5
    | some k0 =>
      rw [hf] at h5
      injection h5 with h5
      exact h5 ▸ List.find?_some hf
  have hKnot : K ∉ tD.keys := by
    intro hmem
    have := List.find?_eq_none.mp h9 K hmem
    exact this hKm
  have hkeysD : ((advanceCursor tD DICT_ACCESS_SIZE).insert_value
      K v).keys = tD.keys ++ [K] := by
    unfold DictTracker.keys DictTracker.insert_value advanceCursor
    exact keys_insertOrUpdate_not_mem v hKnot
  have hpreD : get_preimage_for_hashed_key sponge h
      ((advanceCursor tD DICT_ACCESS_SIZE).insert_value K v) = .ok K := by
    unfold get_preimage_for_hashed_key
    rw [hkeysD, find?_append_none _ h9, List.find?_cons_of_pos _ hKm]
  have hgvD : ((advanceCursor tD DICT_ACCESS_SIZE).insert_value
      K v).get_value K = .ok v :=
    get_value_insert_value _ K v
  have hfindD1 : dmFind (dmSet s.dm pd.segment_index
      ((advanceCursor tD DICT_ACCESS_SIZE).insert_value K v))
      pd.segment_index =
      some ((advanceCursor tD DICT_ACCESS_SIZE).insert_value K v) :=
    dmFind_dmSet_same _ h8
  have htrkD1 : (dmSet s.dm pd.segment_index
      ((advanceCursor tD DICT_ACCESS_SIZE).insert_value
        K v)).get_tracker pd2 = .ok
      ((advanceCursor tD DICT_ACCESS_SIZE).insert_value K v) := by
    unfold DictManager.get_tracker
    rw [h12, hfindD1]
  have hins : memInsert s.mem out v = .ok ((out, v) :: s.mem) :=
    memInsert_fresh v h14
  refine ⟨?_, ?_, hfindD1, rfl, ?_, ?_⟩
  · unfold copy_hashdict_tracker_entry
    simp only [h1, h2, htrkS, h4, h5, h6, htrkD]
  · rw [dmFind_dmSet_ne s.dm _ (fun hh => h7 hh.symm)]
    exact h3
  · unfold hashdict_read_from_key
    simp only [h10, h11, htrkD1, hpreD, hgvD, insert_value_from_var_name,
      h13, hins]
  · simp [memGet_cons]

/-- A copy scenario with an empty destination tracker, for the amended C8
witness. -/
def exC_dstEmpty : DictTracker := ⟨[], ⟨2, 0⟩, none⟩

def exC_sE : S := ⟨exC_mem, 3, [(1, exC_srcT), (2, exC_dstEmpty)]⟩

/-- Witness for the amended C8 at a concrete input: copying into an empty
destination tracker, the hashed read against the destination returns
the copied value 9 and the destination cursor advanced from 0 to 3. -/
theorem spec_c8_witness :
    copy_hashdict_tracker_entry (fun l => l.sum) exC_ids exC_sE =
      .ok { exC_sE with dm := dmSet exC_sE.dm 2 ((advanceCursor exC_dstEmpty DICT_ACCESS_SIZE).insert_value (.compound [.int 5, .relocatableValue ⟨9, 9⟩]) (.int 9)) } ∧
    dmFind (dmSet exC_sE.dm 2 ((advanceCursor exC_dstEmpty DICT_ACCESS_SIZE).insert_value (.compound [.int 5, .relocatableValue ⟨9, 9⟩]) (.int 9))) 1 = some exC_srcT ∧
    dmFind (dmSet exC_sE.dm 2 ((advanceCursor exC_dstEmpty DICT_ACCESS_SIZE).insert_value (.compound [.int 5, .relocatableValue ⟨9, 9⟩]) (.int 9))) 2 = some ((advanceCursor exC_dstEmpty DICT_ACCESS_SIZE).insert_value (.compound [.int 5, .relocatableValue ⟨9, 9⟩]) (.int 9)) ∧
    ((advanceCursor exC_dstEmpty DICT_ACCESS_SIZE).insert_value (.compound [.int 5, .relocatableValue ⟨9, 9⟩]) (.int 9)).current_ptr.offset = exC_dstEmpty.current_ptr.offset + DICT_ACCESS_SIZE ∧
    hashdict_read_from_key (fun l => l.sum) exC_ids2
      { exC_sE with dm := dmSet exC_sE.dm 2 ((advanceCursor exC_dstEmpty DICT_ACCESS_SIZE).insert_value (.compound [.int 5, .relocatableValue ⟨9, 9⟩]) (.int 9)) } =
      .ok { exC_sE with mem := (⟨0, 5⟩, .int 9) :: exC_mem, dm := dmSet exC_sE.dm 2 ((advanceCursor exC_dstEmpty DICT_ACCESS_SIZE).insert_value (.compound [.int 5, .relocatableValue ⟨9, 9⟩]) (.int 9)) } ∧
    memGet ((⟨0, 5⟩, .int 9) :: exC_mem) ⟨0, 5⟩ = some (.int 9) :=
  spec_c8_copy_amended (fun l => l.sum) exC_ids exC_ids2 exC_sE
    ⟨1, 0⟩ ⟨2, 0⟩ ⟨2, 0⟩ ⟨0, 5⟩ 5
    (.compound [.int 5, .relocatableValue ⟨9, 9⟩]) (.int 9)
    exC_srcT exC_dstEmpty rfl rfl rfl rfl rfl rfl (by decide) rfl rfl
    rfl rfl rfl rfl rfl

theorem insert_value_ok_addr_err {ids : Ids} {m : Memory} {name : String}
    {v : MaybeRelocatable} {a : Relocatable} {e : HintError}
    (ha : idAddr ids name = .ok a)
    (h : insert_value_from_var_name ids m name v = .error e) :
    e.isMemoryError = true := by
  unfold insert_value_from_var_name at h
  simp only [ha] at h
  exact memInsert_err_memory h

/-- The output-construction loop can only succeed or fail with a memory
error as long as no match is the empty sequence. -/
theorem write_matches_outcomes :
    ∀ (ms : List (List MaybeRelocatable)) (s : S) (b : Relocatable)
      (i : Nat), [] ∉ ms →
      (∃ s2, write_matches s b i ms = .ok s2) ∨
      (∃ e s2, write_matches s b i ms = .err e s2 ∧
        e.isMemoryError = true) := by
  intro ms
  induction ms with
  | nil =>
    intro s b i hne
    exact Or.inl ⟨s, rfl⟩
  | cons pre rest ih =>
    intro s b i hne
    simp only [List.mem_cons, not_or] at hne
    obtain ⟨hpre, hrest⟩ := hne
    cases pre with
    | nil => exact absurd rfl (fun hh => hpre hh.symm)
    | cons first tail =>
      unfold write_matches
      simp only [add_memory_segment]
      cases hwc : write_cells
          { s with nextSegment := s.nextSegment + 1 + 1 }.mem
          ⟨s.nextSegment + 1, 0⟩ 0 tail with
      | mk m eo =>
        cases eo with
        | some e =>
          simp only [hwc]
          exact Or.inr ⟨e, _, rfl, write_cells_err_memory tail _ m 0 e hwc⟩
        | none =>
          simp only [hwc]
          cases hi1 : memInsert m ⟨s.nextSegment, 0⟩ first with
          | error e =>
            simp only [hi1]
            exact Or.inr ⟨e, _, rfl, memInsert_err_memory hi1⟩
          | ok m2 =>
            simp only [hi1]
            cases hi2 : memInsert m2 ⟨s.nextSegment, 0 + 1⟩
                (.relocatableValue ⟨s.nextSegment + 1, 0⟩) with
            | error e =>
              simp only [hi2]
              exact Or.inr ⟨e, _, rfl, memInsert_err_memory hi2⟩
            | ok m3 =>
              simp only [hi2]
              cases hi3 : memInsert m3 ⟨b.segment_index, b.offset + i⟩
                  (.relocatableValue ⟨s.nextSegment, 0⟩) with
              | error e =>
                simp only [hi3]
                exact Or.inr ⟨e, _, rfl, memInsert_err_memory hi3⟩
              | ok m4 =>
                simp only [hi3]
                exact ih _ b (i + 1) hrest

/-- The tracker and prefix of the C9 counterexample: the tracker holds
the empty compound key (insertable by a zero-length write), and the
queried leading sequence is empty, so the empty key matches. -/
def exK_ids : Ids :=
  [("dict_ptr", ⟨0, 0⟩), ("prefix", ⟨0, 1⟩), ("prefix_len", ⟨0, 2⟩),
   ("keys_len", ⟨0, 3⟩), ("keys", ⟨0, 4⟩)]

def exK_mem : Memory :=
  [(⟨0, 0⟩, .relocatableValue ⟨1, 0⟩), (⟨0, 1⟩, .relocatableValue ⟨0, 9⟩),
   (⟨0, 2⟩, .int 0)]

def exK_s : S := ⟨exK_mem, 2, [(1, ⟨[(.compound [], .int 7)], ⟨1, 0⟩, none⟩)]⟩

/-- Counterexample to C9 as stated: on a tracker containing the empty
compound key, the prefix query for the empty sequence matches that key
and the output construction then slices `preimage[1..]` of an empty
vector, a Rust panic — an abnormal termination that is neither success
nor a MemoryError failure. -/
theorem spec_c9_counterexample :
    get_keys_for_address_prefix exK_ids exK_s = .panicked := rfl

/-- C9 (amended): for every tracker content none of whose matching
compound keys is the empty sequence, and every prefix (with resolvable
operands), Prefix Enumeration either succeeds (zero matches being a
valid, empty result) or fails with a memory error; a matching empty
compound key instead aborts abnormally (Rust panic, see the
counterexample). -/
theorem spec_c9_amended :
    ∀ (ids : Ids) (s : S) (p pp a1 a2 : Relocatable) (t : DictTracker)
      (plf : Felt) (pl : Nat) (pfx : List MaybeRelocatable),
      get_ptr_from_var_name ids s.mem "dict_ptr" = .ok p →
      dmFind s.dm p.segment_index = some t →
      get_ptr_from_var_name ids s.mem "prefix" = .ok pp →
      get_integer_from_var_name ids s.mem "prefix_len" = .ok plf →
      felt_to_usize plf = .ok pl →
      read_cells s.mem pp 0 pl = .ok pfx →
      idAddr ids "keys_len" = .ok a1 →
      idAddr ids "keys" = .ok a2 →
      [] ∉ matching_preimages pfx t →
      (∃ s2, get_keys_for_address_prefix ids s = .ok s2) ∨
      (∃ e s2, get_keys_for_address_prefix ids s = .err e s2 ∧
        e.isMemoryError = true) := by
  intro ids s p pp a1 a2 t plf pl pfx hdp htr hpp hplf hplu hrc hk1 hk2 hne
  have htrk : s.dm.get_tracker p = .ok t := by
    unfold DictManager.get_tracker
    rw [htr]
  unfold get_keys_for_address_prefix
  simp only [hdp, htrk, hpp, hplf, hplu, hrc, add_memory_segment]
  rcases write_matches_outcomes (matching_preimages pfx t)
      { s with nextSegment := s.nextSegment + 1 } ⟨s.nextSegment, 0⟩ 0 hne
    with ⟨s2, heq⟩ | ⟨e, s2, heq, hmem⟩
  · simp only [heq]
    cases hi1 : insert_value_from_var_name ids s2.mem "keys_len"
        (.int (matching_preimages pfx t).length) with
    | error e =>
      simp only [hi1]
      exact Or.inr ⟨e, s2, rfl, insert_value_ok_addr_err hk1 hi1⟩
    | ok m5 =>
      simp only [hi1]
      cases hi2 : insert_value_from_var_name ids m5 "keys"
          (.relocatableValue ⟨s.nextSegment, 0⟩) with
      | error e =>
        simp only [hi2]
        exact Or.inr ⟨e, _, rfl, insert_value_ok_addr_err hk2 hi2⟩
      | ok m6 =>
        simp only [hi2]
        exact Or.inl ⟨_, rfl⟩
  · rw [heq]
    exact Or.inr ⟨e, s2, rfl, hmem⟩

/-- Witness for the amended C9 at a concrete input: the same query
against a tracker whose only key is the nonempty compound key `[5]`
succeeds. -/
theorem spec_c9_witness :
    (∃ s2, get_keys_for_address_prefix exK_ids
      ⟨exK_mem, 2, [(1, ⟨[(.compound [.int 5], .int 7)], ⟨1, 0⟩, none⟩)]⟩ =
        .ok s2) ∨
    (∃ e s2, get_keys_for_address_prefix exK_ids
      ⟨exK_mem, 2, [(1, ⟨[(.compound [.int 5], .int 7)], ⟨1, 0⟩, none⟩)]⟩ =
        .err e s2 ∧ e.isMemoryError = true) :=
  spec_c9_amended exK_ids
    ⟨exK_mem, 2, [(1, ⟨[(.compound [.int 5], .int 7)], ⟨1, 0⟩, none⟩)]⟩
    ⟨1, 0⟩ ⟨0, 9⟩ ⟨0, 3⟩ ⟨0, 4⟩ ⟨[(.compound [.int 5], .int 7)], ⟨1, 0⟩, none⟩
    0 0 [] rfl rfl rfl rfl rfl rfl rfl rfl (by decide)

/-- Outcome characterization of `track_precompiles`: either an early
failure with the state untouched, or success with the target tracker
seeded and its cursor advanced by one record width per precompile. -/
theorem track_precompiles_cases (pre : List Felt) (ids : Ids) (s : S) :
    (∃ e, track_precompiles pre ids s = .err e s) ∨
    (∃ p t0, get_ptr_from_var_name ids s.mem "dict_ptr" = .ok p ∧
      dmFind s.dm p.segment_index = some t0 ∧
      track_precompiles pre ids s = .ok
        { s with dm := dmSet s.dm p.segment_index (advanceCursor (pre.foldl (fun t address => t.insert_value (.compound [.int address]) (.int 1)) t0) (pre.length * DICT_ACCESS_SIZE)) }) := by
  cases hdp : get_ptr_from_var_name ids s.mem "dict_ptr" with
  | error e =>
    exact Or.inl ⟨e, by unfold track_precompiles; simp only [hdp]⟩
  | ok p =>
    cases htr : DictManager.get_tracker s.dm p with
    | error e =>
      exact Or.inl ⟨e, by unfold track_precompiles; simp only [hdp, htr]⟩
    | ok t0 =>
      exact Or.inr ⟨p, t0, rfl, get_tracker_ok htr, by
        unfold track_precompiles
        simp only [hdp, htr]⟩

/-- Outcome characterization of `copy_hashdict_tracker_entry`: either a
failure with the state untouched, or success with the destination
tracker advanced by one record width and the pair inserted. -/
theorem copy_hashdict_cases (sponge : List Felt → Felt) (ids : Ids)
    (s : S) :
    (∃ e, copy_hashdict_tracker_entry sponge ids s = .err e s) ∨
    (∃ (pd : Relocatable) (t0 : DictTracker) (K : DictKey)
      (v : MaybeRelocatable), dmFind s.dm pd.segment_index = some t0 ∧
      copy_hashdict_tracker_entry sponge ids s = .ok
        { s with dm := dmSet s.dm pd.segment_index ((advanceCursor t0 DICT_ACCESS_SIZE).insert_value K v) }) := by
  cases h1 : get_ptr_from_var_name ids s.mem "source_ptr_stop" with
  | error e =>
    exact Or.inl ⟨e, by unfold copy_hashdict_tracker_entry
                        simp only [h1]⟩
  | ok ps =>
  cases h2 : get_ptr_from_var_name ids s.mem "dest_ptr" with
  | error e =>
    exact Or.inl ⟨e, by unfold copy_hashdict_tracker_entry
                        simp only [h1, h2]⟩
  | ok pd =>
  cases h3 : DictManager.get_tracker s.dm ps with
  | error e =>
    exact Or.inl ⟨e, by unfold copy_hashdict_tracker_entry
                        simp only [h1, h2, h3]⟩
  | ok tS =>
  cases h4 : get_integer_from_var_name ids s.mem "source_key" with
  | error e =>
    exact Or.inl ⟨e, by unfold copy_hashdict_tracker_entry
                        simp only [h1, h2, h3, h4]⟩
  | ok kh =>
  cases h5 : get_preimage_for_hashed_key sponge kh tS with
  | error e =>
    exact Or.inl ⟨e, by unfold copy_hashdict_tracker_entry
                        simp only [h1, h2, h3, h4, h5]⟩
  | ok K =>
  cases h6 : tS.get_value K with
  | error e =>
    refine Or.inl ⟨.noValueFound K, by
      unfold copy_hashdict_tracker_entry
      simp only [h1, h2, h3, h4, h5, h6]⟩
  | ok v =>
  cases h7 : DictManager.get_tracker s.dm pd with
  | error e =>
    exact Or.inl ⟨e, by unfold copy_hashdict_tracker_entry
                        simp only [h1, h2, h3, h4, h5, h6, h7]⟩
  | ok tD =>
    exact Or.inr ⟨pd, tD, K, v, get_tracker_ok h7, by
      unfold copy_hashdict_tracker_entry
      simp only [h1, h2, h3, h4, h5, h6, h7]⟩

/-- The cursor-monotonicity property of one hint: every tracker present
before an invocation is present after it (on any non-panicking
outcome) with a cursor offset at least as large. -/
def cursorsNondecreasing (f : S → Outcome) : Prop :=
  ∀ (s : S) (g : Nat) (t : DictTracker), dmFind s.dm g = some t →
    ∀ s2, (f s = .ok s2 ∨ ∃ e, f s = .err e s2) →
      ∃ t2, dmFind s2.dm g = some t2 ∧
        t.current_ptr.offset ≤ t2.current_ptr.offset

/-- A hint that never touches the dictionary manager has nondecreasing
cursors. -/
theorem nondecreasing_of_dm_preserved {f : S → Outcome}
    (hf : ∀ s, f s = .panicked ∨
      ∃ s3, (f s = .ok s3 ∨ ∃ e, f s = .err e s3) ∧ s3.dm = s.dm) :
    cursorsNondecreasing f := by
  intro s g t ht s2 hout
  rcases hf s with hp | ⟨s3, hs3, hdm⟩
  · rcases hout with h | ⟨e, h⟩ <;> rw [hp] at h <;> cases h
  · have hdm2 : s2.dm = s.dm := by
      rcases hout with h | ⟨e, h⟩ <;> rcases hs3 with h2 | ⟨e2, h2⟩
      · rw [h] at h2
        injection h2 with a
        rw [a]
        exact hdm
      · rw [h] at h2
        cases h2
      · rw [h] at h2
        cases h2
      · rw [h] at h2
        injection h2 with a b
        rw [b]
        exact hdm
    rw [hdm2]
    exact ⟨t, ht, Nat.le_refl _⟩

/-- `hashdict_read_from_key` never changes the dictionary manager. -/
theorem read_from_key_outcome (sponge : List Felt → Felt) (ids : Ids)
    (s : S) :
    hashdict_read_from_key sponge ids s = .panicked ∨
    ∃ s3, (hashdict_read_from_key sponge ids s = .ok s3 ∨
      ∃ e, hashdict_read_from_key sponge ids s = .err e s3) ∧
      s3.dm = s.dm := by
  cases h1 : get_integer_from_var_name ids s.mem "key" with
  | error e =>
    refine Or.inr ⟨s, Or.inr ⟨e, ?_⟩, rfl⟩
    unfold hashdict_read_from_key
    simp only [h1]
  | ok hk =>
  cases h2 : get_ptr_from_var_name ids s.mem "dict_ptr_stop" with
  | error e =>
    refine Or.inr ⟨s, Or.inr ⟨e, ?_⟩, rfl⟩
    unfold hashdict_read_from_key
    simp only [h1, h2]
  | ok p =>
  cases h3 : DictManager.get_tracker s.dm p with
  | error e =>
    refine Or.inr ⟨s, Or.inr ⟨e, ?_⟩, rfl⟩
    unfold hashdict_read_from_key
    simp only [h1, h2, h3]
  | ok t =>
  cases h4 : get_preimage_for_hashed_key sponge hk t with
  | error e0 =>
    cases h5 : t.get_value (.simple (.int hk)) with
    | error e =>
      refine Or.inr ⟨s, Or.inr ⟨.noValueFound (.simple (.int hk)), ?_⟩, rfl⟩
      unfold hashdict_read_from_key
      simp only [h1, h2, h3, h4, h5]
    | ok v =>
      cases h6 : insert_value_from_var_name ids s.mem "value" v with
      | error e =>
        refine Or.inr ⟨s, Or.inr ⟨e, ?_⟩, rfl⟩
        unfold hashdict_read_from_key
        simp only [h1, h2, h3, h4, h5, h6]
      | ok m2 =>
        refine Or.inr ⟨{ s with mem := m2 }, Or.inl ?_, rfl⟩
        unfold hashdict_read_from_key
        simp only [h1, h2, h3, h4, h5, h6]
  | ok K =>
    cases h5 : t.get_value K with
    | error e =>
      refine Or.inr ⟨s, Or.inr ⟨.noValueFound K, ?_⟩, rfl⟩
      unfold hashdict_read_from_key
      simp only [h1, h2, h3, h4, h5]
    | ok v =>
      cases h6 : insert_value_from_var_name ids s.mem "value" v with
      | error e =>
        refine Or.inr ⟨s, Or.inr ⟨e, ?_⟩, rfl⟩
        unfold hashdict_read_from_key
        simp only [h1, h2, h3, h4, h5, h6]
      | ok m2 =>
        refine Or.inr ⟨{ s with mem := m2 }, Or.inl ?_, rfl⟩
        unfold hashdict_read_from_key
        simp only [h1, h2, h3, h4, h5, h6]

/-- `get_preimage_for_key` never changes the dictionary manager. -/
theorem get_preimage_outcome (sponge : List Felt → Felt) (ids : Ids)
    (s : S) :
    get_preimage_for_key sponge ids s = .panicked ∨
    ∃ s3, (get_preimage_for_key sponge ids s = .ok s3 ∨
      ∃ e, get_preimage_for_key sponge ids s = .err e s3) ∧
      s3.dm = s.dm := by
  cases h1 : get_integer_from_var_name ids s.mem "key" with
  | error e =>
    refine Or.inr ⟨s, Or.inr ⟨e, ?_⟩, rfl⟩
    unfold get_preimage_for_key
    simp only [h1]
  | ok hk =>
  cases h2 : get_ptr_from_var_name ids s.mem "dict_ptr_stop" with
  | error e =>
    refine Or.inr ⟨s, Or.inr ⟨e, ?_⟩, rfl⟩
    unfold get_preimage_for_key
    simp only [h1, h2]
  | ok p =>
  cases h3 : DictManager.get_tracker s.dm p with
  | error e =>
    refine Or.inr ⟨s, Or.inr ⟨e, ?_⟩, rfl⟩
    unfold get_preimage_for_key
    simp only [h1, h2, h3]
  | ok t =>
  cases h4 : get_preimage_for_hashed_key sponge hk t with
  | error e =>
    refine Or.inr ⟨s, Or.inr ⟨e, ?_⟩, rfl⟩
    unfold get_preimage_for_key
    simp only [h1, h2, h3, h4]
  | ok preimage =>
  cases h5 : get_ptr_from_var_name ids s.mem "preimage_data" with
  | error e =>
    refine Or.inr ⟨s, Or.inr ⟨e, ?_⟩, rfl⟩
    unfold get_preimage_for_key
    simp only [h1, h2, h3, h4, h5]
  | ok d =>
  cases preimage with
  | simple v =>
    refine Or.inr ⟨s, Or.inl ?_, rfl⟩
    unfold get_preimage_for_key
    simp only [h1, h2, h3, h4, h5]
  | compound vs =>
    cases h6 : write_cells s.mem d 0 vs with
    | mk m2 eo =>
      cases eo with
      | some e =>
        refine Or.inr ⟨{ s with mem := m2 }, Or.inr ⟨e, ?_⟩, rfl⟩
        unfold get_preimage_for_key
        simp only [h1, h2, h3, h4, h5, h6]
      | none =>
        cases h7 : insert_value_from_var_name ids m2 "preimage_len"
            (.int vs.length) with
        | error e =>
          refine Or.inr ⟨{ s with mem := m2 }, Or.inr ⟨e, ?_⟩, rfl⟩
          unfold get_preimage_for_key
          simp only [h1, h2, h3, h4, h5, h6, h7]
        | ok m3 =>
          refine Or.inr ⟨{ s with mem := m3 }, Or.inl ?_, rfl⟩
          unfold get_preimage_for_key
          simp only [h1, h2, h3, h4, h5, h6, h7]

/-- The output-construction loop never changes the dictionary manager. -/
theorem write_matches_dm :
    ∀ (ms : List (List MaybeRelocatable)) (s : S) (b : Relocatable)
      (i : Nat),
      write_matches s b i ms = .panicked ∨
      ∃ s3, (write_matches s b i ms = .ok s3 ∨
        ∃ e, write_matches s b i ms = .err e s3) ∧ s3.dm = s.dm := by
  intro ms
  induction ms with
  | nil =>
    intro s b i
    exact Or.inr ⟨s, Or.inl rfl, rfl⟩
  | cons pre rest ih =>
    intro s b i
    unfold write_matches
    simp only [add_memory_segment]
    cases pre with
    | nil => exact Or.inl rfl
    | cons first tail =>
      cases hwc : write_cells
          { s with nextSegment := s.nextSegment + 1 + 1 }.mem
          ⟨s.nextSegment + 1, 0⟩ 0 tail with
      | mk m eo =>
        cases eo with
        | some e =>
          simp only [hwc]
          exact Or.inr ⟨_, Or.inr ⟨e, rfl⟩, rfl⟩
        | none =>
          simp only [hwc]
          cases hi1 : memInsert m ⟨s.nextSegment, 0⟩ first with
          | error e =>
            simp only [hi1]
            exact Or.inr ⟨_, Or.inr ⟨e, rfl⟩, rfl⟩
          | ok m2 =>
            simp only [hi1]
            cases hi2 : memInsert m2 ⟨s.nextSegment, 0 + 1⟩
                (.relocatableValue ⟨s.nextSegment + 1, 0⟩) with
            | error e =>
              simp only [hi2]
              exact Or.inr ⟨_, Or.inr ⟨e, rfl⟩, rfl⟩
            | ok m3 =>
              simp only [hi2]
              cases hi3 : memInsert m3 ⟨b.segment_index, b.offset + i⟩
                  (.relocatableValue ⟨s.nextSegment, 0⟩) with
              | error e =>
                simp only [hi3]
                exact Or.inr ⟨_, Or.inr ⟨e, rfl⟩, rfl⟩
              | ok m4 =>
                simp only [hi3]
                exact ih _ b (i + 1)

/-- get_keys_for_address_prefix never changes the dictionary manager. -/
theorem keys_for_address_outcome (ids : Ids) (s : S) :
    get_keys_for_address_prefix ids s = .panicked ∨
    ∃ s3, ( get_keys_for_address_prefix ids s = .ok s3 ∨
      ∃ e, get_keys_for_address_prefix ids s = .err e s3) ∧
      s3.dm = s.dm := by
  cases h1 : get_ptr_from_var_name ids s.mem "dict_ptr" with
  | error e =>
    refine Or.inr ⟨s, Or.inr ⟨e, ?_⟩, rfl⟩
    unfold get_keys_for_address_prefix
    simp only [h1]
  | ok p =>
  cases h2 : DictManager.get_tracker s.dm p with
  | error e =>
    refine Or.inr ⟨s, Or.inr ⟨e, ?_⟩, rfl⟩
    unfold get_keys_for_address_prefix
    simp only [h1, h2]
  | ok t =>
  cases h3 : get_ptr_from_var_name ids s.mem "prefix" with
  | error e =>
    refine Or.inr ⟨s, Or.inr ⟨e, ?_⟩, rfl⟩
    unfold get_keys_for_address_prefix
    simp only [h1, h2, h3]
  | ok pp =>
  cases h4 : get_integer_from_var_name ids s.mem "prefix_len" with
  | error e =>
    refine Or.inr ⟨s, Or.inr ⟨e, ?_⟩, rfl⟩
    unfold get_keys_for_address_prefix
    simp only [h1, h2, h3, h4]
  | ok plf =>
  cases h5 : felt_to_usize plf with
  | error e =>
    refine Or.inr ⟨s, Or.inr ⟨e, ?_⟩, rfl⟩
    unfold get_keys_for_address_prefix
    simp only [h1, h2, h3, h4, h5]
  | ok pl =>
  cases h6 : read_cells s.mem pp 0 pl with
  | error e =>
    refine Or.inr ⟨s, Or.inr ⟨e, ?_⟩, rfl⟩
    unfold get_keys_for_address_prefix
    simp only [h1, h2, h3, h4, h5, h6]
  | ok pfx =>
    rcases write_matches_dm (matching_preimages pfx t)
        { s with nextSegment := s.nextSegment + 1 } ⟨s.nextSegment, 0⟩ 0
      with hp | ⟨s3, hok | ⟨e, herr⟩, hdm⟩
    · refine Or.inl ?_
      unfold get_keys_for_address_prefix
      simp only [h1, h2, h3, h4, h5, h6, add_memory_segment, hp]
    · cases hi1 : insert_value_from_var_name ids s3.mem "keys_len"
          (.int (matching_preimages pfx t).length) with
      | error e =>
        refine Or.inr ⟨s3, Or.inr ⟨e, ?_⟩, hdm⟩
        unfold get_keys_for_address_prefix
        simp only [h1, h2, h3, h4, h5, h6, add_memory_segment, hok, hi1]
      | ok m5 =>
        cases hi2 : insert_value_from_var_name ids m5 "keys"
            (.relocatableValue ⟨s.nextSegment, 0⟩) with
        | error e =>
          refine Or.inr ⟨{ s3 with mem := m5 }, Or.inr ⟨e, ?_⟩, hdm⟩
          unfold get_keys_for_address_prefix
          simp only [h1, h2, h3, h4, h5, h6, add_memory_segment, hok, hi1,
            hi2]
        | ok m6 =>
          refine Or.inr ⟨{ s3 with mem := m6 }, Or.inl ?_, hdm⟩
          unfold get_keys_for_address_prefix
          simp only [h1, h2, h3, h4, h5, h6, add_memory_segment, hok, hi1,
            hi2]
    · refine Or.inr ⟨s3, Or.inr ⟨e, ?_⟩, hdm⟩
      unfold get_keys_for_address_prefix
      simp only [h1, h2, h3, h4, h5, h6, add_memory_segment, herr]

/-- One logged dictionary operation of the access-counting statement: a
Read hint, a Write hint, or one Precompile Seeding call. -/
inductive Op where
  | read (ids : Ids)
  | write (ids : Ids)
  | seed (ids : Ids)

/-- The operand map an operation is invoked with. -/
def Op.opIds : Op → Ids
  | .read ids => ids
  | .write ids => ids
  | .seed ids => ids

/-- The tracker segment an operation targets: the segment of its resolved
dictionary-pointer operand, when that operand resolves. -/
def dictPtrSeg (ids : Ids) (s : S) : Option Nat :=
  match get_ptr_from_var_name ids s.mem "dict_ptr" with
  | .ok p => some p.segment_index
  | .error _ => none

/-- Run one operation. -/
def runOp (pre : List Felt) : Op → S → Outcome
  | .read ids, s => hashdict_read ids s
  | .write ids, s => hashdict_write ids s
  | .seed ids, s => track_precompiles pre ids s

/-- The number of logged accesses one successful operation contributes:
one for Read and Write, one per entry for Precompile Seeding. -/
def opCount (pre : List Felt) : Op → Nat
  | .read _ => 1
  | .write _ => 1
  | .seed _ => pre.length

/-- Run a sequence of operations, stopping at the first failure. -/
def runOps (pre : List Felt) : List Op → S → Outcome
  | [], s => .ok s
  | op :: ops, s =>
    match runOp pre op s with
    | .ok s2 => runOps pre ops s2
    | .err e s2 => .err e s2
    | .panicked => .panicked

/-- The number of successful accesses a sequence of operations logs
against the tracker at segment `g`, replaying the run. -/
def countAccesses (pre : List Felt) (g : Nat) : List Op → S → Nat
  | [], _ => 0
  | op :: ops, s =>
    match runOp pre op s with
    | .ok s2 =>
      (if dictPtrSeg op.opIds s = some g then opCount pre op else 0) +
        countAccesses pre g ops s2
    | _ => 0

/-- One successful operation advances the cursor of the tracker it
targets by its access count times the record width and leaves every
other tracker's cursor unchanged. -/
theorem runOp_ok_cursor (pre : List Felt) (op : Op) (s s2 : S)
    (h : runOp pre op s = .ok s2) (g : Nat) (t : DictTracker)
    (ht : dmFind s.dm g = some t) :
    ∃ t2, dmFind s2.dm g = some t2 ∧
      t2.current_ptr.offset = t.current_ptr.offset +
        (if dictPtrSeg op.opIds s = some g then opCount pre op else 0) *
          DICT_ACCESS_SIZE := by
  cases op with
  | read ids =>
    simp only [runOp] at h
    simp only [Op.opIds, opCount]
    rcases hashdict_read_cases ids s with ⟨e, heq, _⟩ |
      ⟨p, t0, hdp, htr, ⟨e, heq⟩ | ⟨mem2, heq⟩⟩
    · rw [heq] at h; cases h
    · rw [heq] at h; cases h
    · rw [heq] at h
      injection h with h
      subst h
      have hseg : dictPtrSeg ids s = some p.segment_index := by
        unfold dictPtrSeg
        rw [hdp]
      rw [hseg]
      by_cases hg : p.segment_index = g
      · subst hg
        rw [htr] at ht
        injection ht with ht
        rw [if_pos rfl]
        refine ⟨advanceCursor t0 DICT_ACCESS_SIZE,
          dmFind_dmSet_same _ htr, ?_⟩
        rw [← ht, Nat.one_mul]
        rfl
      · rw [if_neg (fun hcontra => hg (Option.some.inj hcontra))]
        refine ⟨t, ?_, by simp⟩
        rw [dmFind_dmSet_ne _ _ hg]
        exact ht
  | write ids =>
    simp only [runOp] at h
    simp only [Op.opIds, opCount]
    rcases hashdict_write_cases ids s with ⟨e, heq, _⟩ |
      ⟨p, t0, hdp, htr, ⟨e, heq⟩ | ⟨K, V, mem2, heq⟩⟩
    · rw [heq] at h; cases h
    · rw [heq] at h; cases h
    · rw [heq] at h
      injection h with h
      subst h
      have hseg : dictPtrSeg ids s = some p.segment_index := by
        unfold dictPtrSeg
        rw [hdp]
      rw [hseg]
      by_cases hg : p.segment_index = g
      · subst hg
        rw [htr] at ht
        injection ht with ht
        rw [if_pos rfl]
        have h1 : dmFind (dmSet s.dm p.segment_index
            (advanceCursor t0 DICT_ACCESS_SIZE)) p.segment_index =
            some (advanceCursor t0 DICT_ACCESS_SIZE) :=
          dmFind_dmSet_same _ htr
        refine ⟨(advanceCursor t0 DICT_ACCESS_SIZE).insert_value K V,
          dmFind_dmSet_same _ h1, ?_⟩
        rw [← ht, Nat.one_mul]
        rfl
      · rw [if_neg (fun hcontra => hg (Option.some.inj hcontra))]
        refine ⟨t, ?_, by simp⟩
        rw [dmFind_dmSet_ne _ _ hg, dmFind_dmSet_ne _ _ hg]
        exact ht
  | seed ids =>
    simp only [runOp] at h
    simp only [Op.opIds, opCount]
    rcases track_precompiles_cases pre ids s with ⟨e, heq⟩ |
      ⟨p, t0, hdp, htr, heq⟩
    · rw [heq] at h; cases h
    · rw [heq] at h
      injection h with h
      subst h
      have hseg : dictPtrSeg ids s = some p.segment_index := by
        unfold dictPtrSeg
        rw [hdp]
      rw [hseg]
      by_cases hg : p.segment_index = g
      · subst hg
        rw [htr] at ht
        injection ht with ht
        rw [if_pos rfl]
        refine ⟨_, dmFind_dmSet_same _ htr, ?_⟩
        rw [← ht]
        show (pre.foldl (fun t1 address => t1.insert_value
            (.compound [.int address]) (.int 1)) t0).current_ptr.offset +
            pre.length * DICT_ACCESS_SIZE =
          t0.current_ptr.offset + pre.length * DICT_ACCESS_SIZE
        rw [foldl_insert_current_ptr]
      · rw [if_neg (fun hcontra => hg (Option.some.inj hcontra))]
        refine ⟨t, ?_, by simp⟩
        rw [dmFind_dmSet_ne _ _ hg]
        exact ht

/-- A fully successful operation sequence advances each tracker's cursor
by the replayed access count times the record width. -/
theorem runOps_ok_cursor (pre : List Felt) :
    ∀ (ops : List Op) (s s2 : S), runOps pre ops s = .ok s2 →
      ∀ (g : Nat) (t : DictTracker), dmFind s.dm g = some t →
        ∃ t2, dmFind s2.dm g = some t2 ∧
          t2.current_ptr.offset = t.current_ptr.offset +
            countAccesses pre g ops s * DICT_ACCESS_SIZE := by
  intro ops
  induction ops with
  | nil =>
    intro s s2 h g t ht
    injection h with h
    subst h
    exact ⟨t, ht, by simp [countAccesses]⟩
  | cons op ops ih =>
    intro s s2 h g t ht
    unfold runOps at h
    cases ho : runOp pre op s with
    | ok s1 =>
      rw [ho] at h
      obtain ⟨t1, hf1, hoff1⟩ := runOp_ok_cursor pre op s s1 ho g t ht
      obtain ⟨t2, hf2, hoff2⟩ := ih s1 s2 h g t1 hf1
      refine ⟨t2, hf2, ?_⟩
      have hc : countAccesses pre g (op :: ops) s =
          (if dictPtrSeg op.opIds s = some g then opCount pre op else 0) +
            countAccesses pre g ops s1 := by
        simp only [countAccesses, ho]
      rw [hc, hoff2, hoff1, Nat.add_mul]
      omega
    | err e s1 => rw [ho] at h; cases h
    | panicked => rw [ho] at h; cases h

theorem read_nondecreasing (ids : Ids) :
    cursorsNondecreasing (hashdict_read ids) := by
  intro s g t ht s2 hout
  rcases hashdict_read_cases ids s with ⟨e, heq, _⟩ |
    ⟨p, t0, hdp, htr, ⟨e, heq⟩ | ⟨mem2, heq⟩⟩
  · have hs2 : s2 = s := by
      rcases hout with h | ⟨e2, h⟩
      · rw [heq] at h; cases h
      · rw [heq] at h; injection h with a b; exact b.symm
    subst hs2
    exact ⟨t, ht, Nat.le_refl _⟩
  · have hs2 : s2 = { s with dm := dmSet s.dm p.segment_index (advanceCursor t0 DICT_ACCESS_SIZE) } := by
      rcases hout with h | ⟨e2, h⟩
      · rw [heq] at h; cases h
      · rw [heq] at h; injection h with a b; exact b.symm
    subst hs2
    by_cases hg : p.segment_index = g
    · subst hg
      rw [htr] at ht
      injection ht with ht
      refine ⟨advanceCursor t0 DICT_ACCESS_SIZE,
        dmFind_dmSet_same _ htr, ?_⟩
      rw [← ht]
      exact Nat.le_add_right _ _
    · refine ⟨t, ?_, Nat.le_refl _⟩
      rw [dmFind_dmSet_ne _ _ hg]
      exact ht
  · have hs2 : s2 = { s with mem := mem2, dm := dmSet s.dm p.segment_index (advanceCursor t0 DICT_ACCESS_SIZE) } := by
      rcases hout with h | ⟨e2, h⟩
      · rw [heq] at h; injection h with a; exact a.symm
      · rw [heq] at h; cases h
    subst hs2
    by_cases hg : p.segment_index = g
    · subst hg
      rw [htr] at ht
      injection ht with ht
      refine ⟨advanceCursor t0 DICT_ACCESS_SIZE,
        dmFind_dmSet_same _ htr, ?_⟩
      rw [← ht]
      exact Nat.le_add_right _ _
    · refine ⟨t, ?_, Nat.le_refl _⟩
      rw [dmFind_dmSet_ne _ _ hg]
      exact ht

theorem write_nondecreasing (ids : Ids) :
    cursorsNondecreasing (hashdict_write ids) := by
  intro s g t ht s2 hout
  rcases hashdict_write_cases ids s with ⟨e, heq, _⟩ |
    ⟨p, t0, hdp, htr, ⟨e, heq⟩ | ⟨K, V, mem2, heq⟩⟩
  · have hs2 : s2 = s := by
      rcases hout with h | ⟨e2, h⟩
      · rw [heq] at h; cases h
      · rw [heq] at h; injection h with a b; exact b.symm
    subst hs2
    exact ⟨t, ht, Nat.le_refl _⟩
  · have hs2 : s2 = { s with dm := dmSet s.dm p.segment_index (advanceCursor t0 DICT_ACCESS_SIZE) } := by
      rcases hout with h | ⟨e2, h⟩
      · rw [heq] at h; cases h
      · rw [heq] at h; injection h with a b; exact b.symm
    subst hs2
    by_cases hg : p.segment_index = g
    · subst hg
      rw [htr] at ht
      injection ht with ht
      refine ⟨advanceCursor t0 DICT_ACCESS_SIZE,
        dmFind_dmSet_same _ htr, ?_⟩
      rw [← ht]
      exact Nat.le_add_right _ _
    · refine ⟨t, ?_, Nat.le_refl _⟩
      rw [dmFind_dmSet_ne _ _ hg]
      exact ht
  · have hs2 : s2 = { s with mem := mem2, dm := dmSet (dmSet s.dm p.segment_index (advanceCursor t0 DICT_ACCESS_SIZE)) p.segment_index ((advanceCursor t0 DICT_ACCESS_SIZE).insert_value K V) } := by
      rcases hout with h | ⟨e2, h⟩
      · rw [heq] at h; injection h with a; exact a.symm
      · rw [heq] at h; cases h
    subst hs2
    by_cases hg : p.segment_index = g
    · subst hg
      rw [htr] at ht
      injection ht with ht
      have h1 : dmFind (dmSet s.dm p.segment_index
          (advanceCursor t0 DICT_ACCESS_SIZE)) p.segment_index =
          some (advanceCursor t0 DICT_ACCESS_SIZE) :=
        dmFind_dmSet_same _ htr
      refine ⟨(advanceCursor t0 DICT_ACCESS_SIZE).insert_value K V,
        dmFind_dmSet_same _ h1, ?_⟩
      rw [← ht]
      exact Nat.le_add_right _ _
    · refine ⟨t, ?_, Nat.le_refl _⟩
      rw [dmFind_dmSet_ne _ _ hg, dmFind_dmSet_ne _ _ hg]
      exact ht

theorem seed_nondecreasing (pre : List Felt) (ids : Ids) :
    cursorsNondecreasing (track_precompiles pre ids) := by
  intro s g t ht s2 hout
  rcases track_precompiles_cases pre ids s with ⟨e, heq⟩ |
    ⟨p, t0, hdp, htr, heq⟩
  · have hs2 : s2 = s := by
      rcases hout with h | ⟨e2, h⟩
      · rw [heq] at h; cases h
      · rw [heq] at h; injection h with a b; exact b.symm
    subst hs2
    exact ⟨t, ht, Nat.le_refl _⟩
  · have hs2 : s2 = { s with dm := dmSet s.dm p.segment_index (advanceCursor (pre.foldl (fun t1 address => t1.insert_value (.compound [.int address]) (.int 1)) t0) (pre.length * DICT_ACCESS_SIZE)) } := by
      rcases hout with h | ⟨e2, h⟩
      · rw [heq] at h; injection h with a; exact a.symm
      · rw [heq] at h; cases h
    subst hs2
    by_cases hg : p.segment_index = g
    · subst hg
      rw [htr] at ht
      injection ht with ht
      refine ⟨_, dmFind_dmSet_same _ htr, ?_⟩
      have hoff : (advanceCursor (pre.foldl (fun t1 address =>
          t1.insert_value (.compound [.int address]) (.int 1)) t0)
          (pre.length * DICT_ACCESS_SIZE)).current_ptr.offset =
          t0.current_ptr.offset + pre.length * DICT_ACCESS_SIZE := by
        show (pre.foldl (fun t1 address => t1.insert_value
            (.compound [.int address]) (.int 1)) t0).current_ptr.offset +
            pre.length * DICT_ACCESS_SIZE =
          t0.current_ptr.offset + pre.length * DICT_ACCESS_SIZE
        rw [foldl_insert_current_ptr]
      rw [hoff, ← ht]
      exact Nat.le_add_right _ _
    · refine ⟨t, ?_, Nat.le_refl _⟩
      rw [dmFind_dmSet_ne _ _ hg]
      exact ht

theorem copy_nondecreasing (sponge : List Felt → Felt) (ids : Ids) :
    cursorsNondecreasing (copy_hashdict_tracker_entry sponge ids) := by
  intro s g t ht s2 hout
  rcases copy_hashdict_cases sponge ids s with ⟨e, heq⟩ |
    ⟨pd, t0, K, v, htr, heq⟩
  · have hs2 : s2 = s := by
      rcases hout with h | ⟨e2, h⟩
      · rw [heq] at h; cases h
      · rw [heq] at h; injection h with a b; exact b.symm
    subst hs2
    exact ⟨t, ht, Nat.le_refl _⟩
  · have hs2 : s2 = { s with dm := dmSet s.dm pd.segment_index ((advanceCursor t0 DICT_ACCESS_SIZE).insert_value K v) } := by
      rcases hout with h | ⟨e2, h⟩
      · rw [heq] at h; injection h with a; exact a.symm
      · rw [heq] at h; cases h
    subst hs2
    by_cases hg : pd.segment_index = g
    · subst hg
      rw [htr] at ht
      injection ht with ht
      refine ⟨(advanceCursor t0 DICT_ACCESS_SIZE).insert_value K v,
        dmFind_dmSet_same _ htr, ?_⟩
      rw [← ht]
      exact Nat.le_add_right _ _
    · refine ⟨t, ?_, Nat.le_refl _⟩
      rw [dmFind_dmSet_ne _ _ hg]
      exact ht

/-- C1: after a sequence of successful Read or Write operations targeting
a tracker, plus one access per entry seeded by Precompile Seeding, the
tracker's cursor equals its initial value plus the number of logged
accesses times the fixed record width; and no hint operation ever
decreases any tracker's cursor, on any outcome. -/
theorem spec_c1_cursor_accounting :
    (∀ (pre : List Felt) (ops : List Op) (s s2 : S),
      runOps pre ops s = .ok s2 →
      ∀ (g : Nat) (t : DictTracker), dmFind s.dm g = some t →
        ∃ t2, dmFind s2.dm g = some t2 ∧
          t2.current_ptr.offset = t.current_ptr.offset +
            countAccesses pre g ops s * DICT_ACCESS_SIZE)
    ∧ (∀ ids, cursorsNondecreasing (hashdict_read ids))
    ∧ (∀ ids, cursorsNondecreasing (hashdict_write ids))
    ∧ (∀ pre ids, cursorsNondecreasing (track_precompiles pre ids))
    ∧ (∀ sponge ids,
        cursorsNondecreasing (hashdict_read_from_key sponge ids))
    ∧ (∀ sponge ids,
        cursorsNondecreasing (get_preimage_for_key sponge ids))
    ∧ (∀ sponge ids,
        cursorsNondecreasing (copy_hashdict_tracker_entry sponge ids))
    ∧ (∀ ids, cursorsNondecreasing ( get_keys_for_address_prefix ids)) :=
  ⟨fun pre => runOps_ok_cursor pre, read_nondecreasing,
    write_nondecreasing, seed_nondecreasing,
    fun sponge ids =>
      nondecreasing_of_dm_preserved (read_from_key_outcome sponge ids),
    fun sponge ids =>
      nondecreasing_of_dm_preserved (get_preimage_outcome sponge ids),
    copy_nondecreasing,
    fun ids => nondecreasing_of_dm_preserved (keys_for_address_outcome ids)⟩

/-- Witness for C1 at a concrete input: a successful write followed by a
successful read against the tracker of segment 1 leaves its cursor at
the initial value plus two accesses times the record width. -/
theorem spec_c1_witness :
    ∃ t2, dmFind (S.dm ⟨(⟨0, 4⟩, .int 7) :: (⟨1, 1⟩, .int 0) :: exW_mem, 2,
        [(1, ⟨[(.compound [.int 10, .int 20], .int 7)], ⟨1, 6⟩,
          some (.int 0)⟩)]⟩) 1 = some t2 ∧
      t2.current_ptr.offset = exW_t0.current_ptr.offset +
        countAccesses [] 1 [Op.write exW_ids, Op.read exW_ids] exW_s *
          DICT_ACCESS_SIZE :=
  spec_c1_cursor_accounting.1 [] [Op.write exW_ids, Op.read exW_ids]
    exW_s
    ⟨(⟨0, 4⟩, .int 7) :: (⟨1, 1⟩, .int 0) :: exW_mem, 2,
      [(1, ⟨[(.compound [.int 10, .int 20], .int 7)], ⟨1, 6⟩,
        some (.int 0)⟩)]⟩
    rfl 1 exW_t0 rfl

end HashDict
